import Mathlib

/-!
Verification of the CalRunrilla-Go calibration core.

This file embeds, shallowly, the parts of the repository that the claims
talk about:

* the heuristic device-factor decoder `GetDeviceFactors`
  (src/serial/leo485.go),
* the version parser `GetVersion` (src/serial/leo485.go),
* the calibration plan builder and matrix assembly
  (src/unnamed/part_004, package modern),
* the zero/factor solve `ComputeZerosAndFactors` (src/unnamed/part_004),
* the sampling engine `SampleADCs` (src/modern/sample.go),
* the averaged-zero collector `CollectAveragedZeros` (src/modern/test.go),
* the flashing machine `FlashParameters` (src/modern/flash.go),
* the calibration step handler of the HTTP server
  (src/internal/server/server.go).

Modelling conventions:

* Go byte buffers are `List Nat` (each entry a byte value).
* Go `float64` arithmetic is modelled exactly over `ℚ`; `float32` values
  are handled through their IEEE-754 bit patterns (a `Nat` below `2^32`)
  and their exact rational value.
* Go `int`/`int64` are modelled as `ℤ`; `uint64` results are modelled as
  the truncation of the rational value (faithful for the non-negative
  inputs the hypotheses of the theorems demand).
* Fallible Go functions return `Option`/a dedicated outcome type.
-/

namespace CalRunrilla

/-- Byte access of a Go slice: `b[i]`. Loop guards in the embedded code
ensure the index is in range wherever the value matters. -/
def byteAt (b : List Nat) (i : Nat) : Nat := b.getD i 0

/-- Big-endian 32-bit group at offset `off`: `binary.BigEndian.Uint32(b[off:off+4])`. -/
def beU32At (b : List Nat) (off : Nat) : Nat :=
  ((byteAt b off * 256 + byteAt b (off + 1)) * 256 + byteAt b (off + 2)) * 256
    + byteAt b (off + 3)

/-- Little-endian 32-bit group at offset `off`: `binary.LittleEndian.Uint32(b[off:off+4])`. -/
def leU32At (b : List Nat) (off : Nat) : Nat :=
  ((byteAt b (off + 3) * 256 + byteAt b (off + 2)) * 256 + byteAt b (off + 1)) * 256
    + byteAt b off

/-- The 32-bit group at offset `off` in the endianness selected by `useLE`
(mirrors the `useLE` switch in `GetDeviceFactors`). -/
def u32At (useLE : Bool) (b : List Nat) (off : Nat) : Nat :=
  if useLE then leU32At b off else beU32At b off

/-- Exact value of an IEEE-754 single-precision bit pattern,
`math.Float32frombits` composed with the float64 widening (which is exact).
Returns `none` exactly when the pattern is a NaN or an infinity, the cases
`math.IsNaN`/`math.IsInf` reject in the source. -/
def float32ValOfBits (u : Nat) : Option ℚ :=
  let sign : ℚ := if u / 2 ^ 31 % 2 = 1 then -1 else 1
  let e : Nat := u / 2 ^ 23 % 2 ^ 8
  let m : Nat := u % 2 ^ 23
  if e = 255 then none
  else if e = 0 then some (sign * m / 2 ^ 149)
  else some (sign * (2 ^ 23 + m) / 2 ^ 23 * (2 ^ e / 2 ^ 127 : ℚ))

/-- One decoded 4-byte factor group: the float at `b[off:off+4]` in the
endianness `useLE`, `none` when NaN or infinite. -/
def decodeChunk (useLE : Bool) (b : List Nat) (off : Nat) : Option ℚ :=
  float32ValOfBits (u32At useLE b off)

/-- The validity check of `GetDeviceFactors`: the decoded value is finite,
not NaN and of magnitude at most `1e6`. -/
def chunkOk (useLE : Bool) (b : List Nat) (off : Nat) : Bool :=
  match decodeChunk useLE b off with
  | none => false
  | some q => |q| ≤ 1000000

/-- Plausibility check of the fallback pass: decoded magnitude above `1e-6`.
The source computes `math.Abs(vals[i]) > 1e-6` on the raw float64; for NaN
that comparison is false and for an infinity the window is invalid anyway,
so rejecting `none` here agrees with the source on every path where the
flag is consumed. -/
def chunkPlausible (useLE : Bool) (b : List Nat) (off : Nat) : Bool :=
  match decodeChunk useLE b off with
  | none => false
  | some q => 1 / 1000000 < |q|

/-- Decoded values of `n` consecutive groups starting at `start`
(the `vals` array of the source; entries default to 0 only on paths the
validity flags already rejected). -/
def groupVals (useLE : Bool) (b : List Nat) (start n : Nat) : List ℚ :=
  (List.range n).map fun j => (decodeChunk useLE b (start + 4 * j)).getD 0

/-- All `n` groups from `start` pass the validity check (`ok` in the anchor
pass, `validBE`/`validLE` in the fallback pass). -/
def groupsOk (useLE : Bool) (b : List Nat) (start n : Nat) : Bool :=
  (List.range n).all fun j => chunkOk useLE b (start + 4 * j)

/-- Some group from `start` passes the plausibility check
(`anyReasonableBE`/`anyReasonableLE` in the fallback pass). -/
def groupsPlausible (useLE : Bool) (b : List Nat) (start n : Nat) : Bool :=
  (List.range n).any fun j => chunkPlausible useLE b (start + 4 * j)

/-- `b[i:i+4]` equals the big-endian bit pattern of `1.0f32`
(`anchorBE = 3F 80 00 00`). In-range use is guarded by the scan loop. -/
def isAnchorBE (b : List Nat) (i : Nat) : Bool :=
  byteAt b i == 0x3F && byteAt b (i + 1) == 0x80 &&
    byteAt b (i + 2) == 0x00 && byteAt b (i + 3) == 0x00

/-- `b[i:i+4]` equals the little-endian bit pattern of `1.0f32`
(`anchorLE = 00 00 80 3F`). -/
def isAnchorLE (b : List Nat) (i : Nat) : Bool :=
  byteAt b i == 0x00 && byteAt b (i + 1) == 0x00 &&
    byteAt b (i + 2) == 0x80 && byteAt b (i + 3) == 0x3F

/-- Acceptance test of the anchor pass at scan position `i`: enough
trailing bytes for `nlcs` groups, an anchor in either endianness, and
every decoded group valid. -/
def anchorAcceptAt (nlcs : Nat) (b : List Nat) (i : Nat) : Bool :=
  decide (i + 4 + 4 * nlcs ≤ b.length) &&
    (isAnchorBE b i || isAnchorLE b i) &&
    groupsOk (isAnchorLE b i) b (i + 4) nlcs

/-- The values the anchor pass returns when it accepts position `i`. -/
def anchorValsAt (nlcs : Nat) (b : List Nat) (i : Nat) : List ℚ :=
  groupVals (isAnchorLE b i) b (i + 4) nlcs

/-- First index `i`, counting up from `start` for `fuel` steps, at which
`accept` holds: the left-to-right scan shared by both passes. -/
def scanFirst (accept : Nat → Bool) : Nat → Nat → Option Nat
  | _, 0 => none
  | i, fuel + 1 => if accept i then some i else scanFirst accept (i + 1) fuel

/-- Anchor pass of `GetDeviceFactors`: the first accepted scan position
(the Go loop runs `i` while `i+4 ≤ len(b)`; positions with too few
trailing bytes fail `anchorAcceptAt`, so fuel `b.length` covers it). -/
def anchorPass (nlcs : Nat) (b : List Nat) : Option (List ℚ) :=
  (scanFirst (anchorAcceptAt nlcs b) 0 b.length).map (anchorValsAt nlcs b)

/-- Acceptance test of the sliding-window fallback at window start
`start`: the window fits and one endianness is both valid and plausible. -/
def fallbackAcceptAt (nlcs : Nat) (b : List Nat) (start : Nat) : Bool :=
  decide (start + 4 * nlcs ≤ b.length) &&
    (groupsOk false b start nlcs && groupsPlausible false b start nlcs ||
      groupsOk true b start nlcs && groupsPlausible true b start nlcs)

/-- Values the fallback returns at an accepted window: big-endian is
preferred over little-endian at the same position, as in the source. -/
def fallbackValsAt (nlcs : Nat) (b : List Nat) (start : Nat) : List ℚ :=
  if groupsOk false b start nlcs && groupsPlausible false b start nlcs then
    groupVals false b start nlcs
  else
    groupVals true b start nlcs

/-- Sliding-window fallback pass of `GetDeviceFactors` (the Go loop runs
`start` while `start+4*nlcs ≤ len(b)`, hence fuel `b.length + 1`). -/
def fallbackPass (nlcs : Nat) (b : List Nat) : Option (List ℚ) :=
  (scanFirst (fallbackAcceptAt nlcs b) 0 (b.length + 1)).map (fallbackValsAt nlcs b)

/-- Outcome of `GetDeviceFactors` after a successful bus exchange:
`vals` = values with nil error, `empty` = the early return `(nil, nil)`
for an empty response, `noValid` = the terminal
`"no valid factors found in response"` error. -/
inductive FactorsOutcome where
  | vals (xs : List ℚ)
  | empty
  | noValid
  deriving DecidableEq, Repr

/-- `GetDeviceFactors` (src/serial/leo485.go, lines 168-246) applied to the
raw response bytes `b`: the empty-response early return, then the anchor
pass, then the sliding-window fallback, then the error. -/
def getDeviceFactors (nlcs : Nat) (b : List Nat) : FactorsOutcome :=
  if b.length = 0 then .empty
  else
    match anchorPass nlcs b with
    | some vs => .vals vs
    | none =>
      match fallbackPass nlcs b with
      | some vs => .vals vs
      | none => .noValid

lemma scanFirst_eq_some {accept : Nat → Bool} {i : Nat} (h1 : accept i = true) :
    ∀ fuel start, (∀ j, start ≤ j → j < i → accept j = false) →
      start ≤ i → i < start + fuel → scanFirst accept start fuel = some i := by
  intro fuel
  induction fuel with
  | zero => intro start _ _ h4; omega
  | succ n ih =>
    intro start h2 h3 h4
    by_cases hs : start = i
    · subst hs; simp [scanFirst, h1]
    · have hf : accept start = false := h2 start (Nat.le_refl _) (by omega)
      simp only [scanFirst, hf, Bool.false_eq_true, if_false]
      exact ih (start + 1) (fun j hj1 hj2 => h2 j (by omega) hj2) (by omega) (by omega)

/-- **C3.** The anchor pass of `GetDeviceFactors`: if position `i` is
followed by at least `4·nlcs` further bytes after the 4-byte anchor group
(which equals the big-endian or little-endian bit pattern of `1.0f32`),
every one of the `nlcs` consecutive 4-byte groups after it decodes, in the
anchor's endianness, to a finite non-NaN float of magnitude at most `1e6`,
and no earlier scan position is acceptable, then the call returns exactly
those `nlcs` decoded values. -/
theorem anchor_pass_returns_first_acceptable
    (nlcs : Nat) (b : List Nat) (i : Nat) (hn : 0 < nlcs)
    (hlen : i + 4 + 4 * nlcs ≤ b.length)
    (hanch : isAnchorBE b i = true ∨ isAnchorLE b i = true)
    (hok : groupsOk (isAnchorLE b i) b (i + 4) nlcs = true)
    (hfirst : ∀ j, j < i → anchorAcceptAt nlcs b j = false) :
    getDeviceFactors nlcs b = .vals (anchorValsAt nlcs b i) ∧
      (anchorValsAt nlcs b i).length = nlcs := by
  have hacc : anchorAcceptAt nlcs b i = true := by
    unfold anchorAcceptAt
    rcases hanch with h | h
    · simp [hlen, h, hok]
    · rw [h] at hok
      simp [hlen, h, hok]
  have hscan : scanFirst (anchorAcceptAt nlcs b) 0 b.length = some i :=
    scanFirst_eq_some hacc b.length 0 (fun j _ hj => hfirst j hj)
      (Nat.zero_le _) (by omega)
  have hne : ¬ b.length = 0 := by omega
  refine ⟨?_, by simp [anchorValsAt, groupVals]⟩
  simp [getDeviceFactors, hne, anchorPass, hscan]

/-- Witness for C3: the big-endian `1.0f32` anchor followed by the single
big-endian float `2.0f32` decodes to exactly `[2]`. -/
theorem anchor_pass_witness :
    getDeviceFactors 1 [0x3F, 0x80, 0x00, 0x00, 0x40, 0x00, 0x00, 0x00] =
      .vals [2] := by
  have h := anchor_pass_returns_first_acceptable 1
    [0x3F, 0x80, 0x00, 0x00, 0x40, 0x00, 0x00, 0x00] 0
    (by decide) (by decide) (Or.inl (by decide))
    (by norm_num [groupsOk, chunkOk, decodeChunk, u32At, beU32At, leU32At,
          byteAt, float32ValOfBits, isAnchorLE, abs_le])
    (fun j hj => absurd hj (Nat.not_lt_zero j))
  rw [h.1]
  norm_num [anchorValsAt, groupVals, decodeChunk, u32At, beU32At, leU32At,
    byteAt, float32ValOfBits, isAnchorLE, show List.range 1 = [0] from rfl]

/-- **C4.** Evaluation of `GetDeviceFactors` at the inputs that settle the
claim: (1) on the empty response the call returns `(nil, nil)` — no values
and *no error* — although the claim (and the function's own documentation)
requires the no-valid-factors error whenever no window qualifies; (2) on a
4-byte anchorless buffer whose little-endian reading is the valid,
plausible `2.0f32` (while the big-endian reading is valid but implausibly
tiny), the fallback returns the little-endian interpretation; (3) on a
buffer whose big-endian reading is NaN and little-endian reading is
implausibly tiny, no window qualifies and the call fails with the
no-valid-factors error. -/
lemma scanFirst_eq_none {accept : Nat → Bool} :
    ∀ fuel start, (∀ j, start ≤ j → j < start + fuel → accept j = false) →
      scanFirst accept start fuel = none := by
  intro fuel
  induction fuel with
  | zero => intro start _; rfl
  | succ n ih =>
    intro start h2
    have hf : accept start = false := h2 start (Nat.le_refl _) (by omega)
    simp only [scanFirst, hf, Bool.false_eq_true, if_false]
    exact ih (start + 1) (fun j hj1 hj2 => h2 j (by omega) (by omega))

/-- A 4-byte buffer is too short for an anchor plus one factor group, so
the anchor pass of `GetDeviceFactors` rejects every position in it. -/
lemma anchorPass_four_bytes (b : List Nat) (hb : b.length = 4) :
    anchorPass 1 b = none := by
  unfold anchorPass
  rw [scanFirst_eq_none]
  · rfl
  · intro j _ _
    have hj : ¬ (j + 4 + 4 * 1 ≤ b.length) := by omega
    simp [anchorAcceptAt, hj]

theorem device_factors_empty_response_is_silent :
    getDeviceFactors 1 [] = .empty ∧
      FactorsOutcome.empty ≠ FactorsOutcome.noValid ∧
      getDeviceFactors 1 [0x00, 0x00, 0x00, 0x40] = .vals [2] ∧
      getDeviceFactors 1 [0x7F, 0xC0, 0x00, 0x00] = .noValid := by
  refine ⟨by simp [getDeviceFactors], by simp, ?_, ?_⟩
  · have hanch : anchorPass 1 [0x00, 0x00, 0x00, 0x40] = none :=
      anchorPass_four_bytes _ (by decide)
    have hacc : fallbackAcceptAt 1 [0x00, 0x00, 0x00, 0x40] 0 = true := by
      norm_num [fallbackAcceptAt, groupsOk, groupsPlausible, chunkOk,
        chunkPlausible, decodeChunk, u32At, beU32At, leU32At, byteAt,
        float32ValOfBits, show List.range 1 = [0] from rfl, abs_le, lt_abs]
    have hfall : fallbackPass 1 [0x00, 0x00, 0x00, 0x40] = some [2] := by
      unfold fallbackPass
      rw [scanFirst_eq_some hacc _ 0 (fun j _ hj => absurd hj (Nat.not_lt_zero j))
        (Nat.le_refl 0) (by norm_num)]
      norm_num [fallbackValsAt, groupsOk, groupsPlausible, chunkOk,
        chunkPlausible, groupVals, decodeChunk, u32At, beU32At, leU32At,
        byteAt, float32ValOfBits, show List.range 1 = [0] from rfl, abs_le, lt_abs]
    simp [getDeviceFactors, hanch, hfall]
  · have hanch : anchorPass 1 [0x7F, 0xC0, 0x00, 0x00] = none :=
      anchorPass_four_bytes _ (by decide)
    have hfall : fallbackPass 1 [0x7F, 0xC0, 0x00, 0x00] = none := by
      unfold fallbackPass
      rw [scanFirst_eq_none]
      · rfl
      · intro j _ hj
        have hj5 : j < 5 := by simp at hj; omega
        interval_cases j
        · norm_num [fallbackAcceptAt, groupsOk, groupsPlausible, chunkOk,
            chunkPlausible, decodeChunk, u32At, beU32At, leU32At, byteAt,
            float32ValOfBits, show List.range 1 = [0] from rfl, abs_le, lt_abs]
        all_goals
          simp [fallbackAcceptAt, show ¬ ((1 : Nat) + 4 * 1 ≤ 4) by omega,
            show ¬ ((2 : Nat) + 4 * 1 ≤ 4) by omega,
            show ¬ ((3 : Nat) + 4 * 1 ≤ 4) by omega,
            show ¬ ((4 : Nat) + 4 * 1 ≤ 4) by omega]
    simp [getDeviceFactors, hanch, hfall]

/-! ### Version parsing (`GetVersion`, src/serial/leo485.go lines 76-98) -/

/-- First index at which `pat` occurs as a contiguous substring of `s`
(`strings.Index`); `none` mirrors the `-1` result. -/
def firstIdx (pat s : List Char) : Option Nat :=
  scanFirst (fun i => pat.isPrefixOf (s.drop i)) 0 (s.length + 1)

/-- Go's `unicode.IsSpace` restricted to the ASCII range the serial
protocol produces (space, tab, newline, vertical tab, form feed,
carriage return). -/
def isGoSpace (c : Char) : Bool :=
  c == ' ' || c == '\t' || c == '\n' || c == Char.ofNat 11 ||
    c == Char.ofNat 12 || c == '\r'

/-- `strings.TrimSpace`: drop leading and trailing whitespace. -/
def goTrimSpace (s : List Char) : List Char :=
  ((s.dropWhile isGoSpace).reverse.dropWhile isGoSpace).reverse

/-- `strings.Split(s, ".")`: split at every dot; the empty string yields
one empty part. -/
def splitDot : List Char → List (List Char)
  | [] => [[]]
  | c :: rest =>
    if c = '.' then [] :: splitDot rest
    else
      match splitDot rest with
      | [] => [[c]]
      | p :: ps => (c :: p) :: ps

/-- Numeric value of a non-empty all-digit string; `none` on the inputs
`strconv.ParseInt` rejects with a syntax error. -/
def digitsVal : List Char → Option Nat
  | [] => none
  | [c] => if c.isDigit then some (c.toNat - 48) else none
  | c :: rest =>
    if c.isDigit then
      match digitsVal rest with
      | none => none
      | some v => some ((c.toNat - 48) * 10 ^ rest.length + v)
    else none

/-- The optional-sign handling of `strconv.ParseInt`: negativity flag and
the remaining digit string. -/
def signSplit (s : List Char) : Bool × List Char :=
  match s with
  | [] => (false, [])
  | c :: rest =>
    if c = '+' then (false, rest)
    else if c = '-' then (true, rest)
    else (false, s)

/-- The value `strconv.ParseInt(s, 10, 64)` returns alongside its error:
0 on a syntax error, the clamped extreme `int64` on a range overflow, the
signed value otherwise. -/
def goAtoiMag (neg : Bool) (d : Option Nat) : Int :=
  match d with
  | none => 0
  | some mag =>
    if neg then
      if 2 ^ 63 < mag then -(2 ^ 63) else -(mag : Int)
    else
      if 2 ^ 63 ≤ mag then 2 ^ 63 - 1 else (mag : Int)

/-- `strconv.Atoi` with the error discarded, as `GetVersion` uses it. -/
def goAtoi (s : List Char) : Int :=
  goAtoiMag (signSplit s).1 (digitsVal (signSplit s).2)

/-- `strconv.Atoi(s)` succeeds syntactically: an optional sign followed by
at least one digit and nothing else. (A syntactically valid numeral can
still fail with a range error when it overflows `int64`.) -/
def goAtoiSyntaxOk (s : List Char) : Bool :=
  (digitsVal (signSplit s).2).isSome

/-- `strconv.Atoi(s)` returns a non-nil error: a syntax error or an
`int64` range overflow. -/
def goAtoiErr (s : List Char) : Bool :=
  match digitsVal (signSplit s).2 with
  | none => true
  | some m => if (signSplit s).1 then decide (2 ^ 63 < m) else decide (2 ^ 63 ≤ m)

/-- The literal `"Version"` checked by `strings.Contains`. -/
def versionWord : List Char := ['V', 'e', 'r', 's', 'i', 'o', 'n']

/-- The literal `"Version "` located by `strings.Index`. -/
def versionTag : List Char := ['V', 'e', 'r', 's', 'i', 'o', 'n', ' ']

/-- `GetVersion` applied to the collected response text: requires the
substring `"Version"`, locates `"Version "`, trims the remainder, splits
on `"."`, rejects fewer than 3 parts, and otherwise converts the first
three parts with `strconv.Atoi`, errors discarded. Returns
`(id, major, minor)` or `none` for the two error returns. -/
def getVersion (resp : List Char) : Option (Int × Int × Int) :=
  if (firstIdx versionWord resp).isSome then
    match firstIdx versionTag resp with
    | none => none
    | some k =>
      let version := goTrimSpace (resp.drop (k + 8))
      let parts := splitDot version
      if parts.length < 3 then none
      else some (goAtoi (parts.getD 0 []), goAtoi (parts.getD 1 []),
        goAtoi (parts.getD 2 []))
  else none

lemma scanFirst_isSome {accept : Nat → Bool} {i : Nat} (h1 : accept i = true) :
    ∀ fuel start, start ≤ i → i < start + fuel →
      (scanFirst accept start fuel).isSome = true := by
  intro fuel
  induction fuel with
  | zero => intro start _ h4; omega
  | succ n ih =>
    intro start h3 h4
    by_cases hs : accept start
    · simp [scanFirst, hs]
    · simp only [scanFirst, hs, Bool.false_eq_true, if_false]
      have : start ≠ i := fun h => by rw [h] at hs; exact hs h1
      exact ih (start + 1) (by omega) (by omega)

lemma scanFirst_inv {accept : Nat → Bool} {i : Nat} :
    ∀ fuel start, scanFirst accept start fuel = some i →
      accept i = true ∧ start ≤ i ∧ i < start + fuel := by
  intro fuel
  induction fuel with
  | zero => intro start h; simp [scanFirst] at h
  | succ n ih =>
    intro start h
    by_cases hs : accept start
    · simp [scanFirst, hs] at h
      subst h
      exact ⟨hs, Nat.le_refl _, by omega⟩
    · simp only [scanFirst, hs, Bool.false_eq_true, if_false] at h
      obtain ⟨h1, h2, h3⟩ := ih (start + 1) h
      exact ⟨h1, by omega, by omega⟩

/-- If `"Version "` occurs at index `k` of `resp`, so does `"Version"`,
hence the `strings.Contains` guard passes. -/
lemma versionWord_of_versionTag {resp : List Char} {k : Nat}
    (h : firstIdx versionTag resp = some k) :
    (firstIdx versionWord resp).isSome = true := by
  obtain ⟨h1, h2, h3⟩ := scanFirst_inv _ _ h
  have hword : versionWord.isPrefixOf (resp.drop k) = true := by
    rw [List.isPrefixOf_iff_prefix] at h1 ⊢
    exact List.IsPrefix.trans ⟨[' '], rfl⟩ h1
  exact scanFirst_isSome hword (resp.length + 1) 0 (Nat.zero_le _) (by omega)

/-- **C8 counterexample.** A version field that overflows `int64` fails to
parse (`strconv.Atoi` reports a range error), yet `GetVersion` reports the
clamped extreme `int64`, not 0, for it — the claim's "any numeric field
that fails to parse defaults silently to 0" is false on this input. -/
theorem version_overflow_field_not_zero :
    getVersion (String.toList "Version 99999999999999999999.1.2") =
        some (9223372036854775807, 1, 2) ∧
      goAtoiErr (String.toList "99999999999999999999") = true ∧
      (9223372036854775807 : Int) ≠ 0 := by
  decide

/-- **C8 amended.** `GetVersion` fails when the response lacks the literal
substring `"Version "`; with it present at first index `k` it trims the
remainder and splits on `"."`, failing when fewer than 3 parts are
present and otherwise succeeding with the three `strconv.Atoi` values,
where a syntactically unparsable field defaults silently to 0 and a
numeric field overflowing `int64` clamps silently to the extreme `int64`
value; in neither case does the call abort. -/
theorem getVersion_parses_tolerantly (resp : List Char) :
    (firstIdx versionTag resp = none → getVersion resp = none) ∧
    (∀ k, firstIdx versionTag resp = some k →
      (splitDot (goTrimSpace (resp.drop (k + 8)))).length < 3 →
        getVersion resp = none) ∧
    (∀ k, firstIdx versionTag resp = some k →
      3 ≤ (splitDot (goTrimSpace (resp.drop (k + 8)))).length →
        getVersion resp =
          some (goAtoi ((splitDot (goTrimSpace (resp.drop (k + 8)))).getD 0 []),
            goAtoi ((splitDot (goTrimSpace (resp.drop (k + 8)))).getD 1 []),
            goAtoi ((splitDot (goTrimSpace (resp.drop (k + 8)))).getD 2 []))) ∧
    (∀ s, goAtoiSyntaxOk s = false → goAtoi s = 0) := by
  refine ⟨?_, ?_, ?_, ?_⟩
  · intro h
    by_cases hw : (firstIdx versionWord resp).isSome
    · simp [getVersion, hw, h]
    · simp [getVersion, hw]
  · intro k hk hlen
    have hw := versionWord_of_versionTag hk
    simp [getVersion, hw, hk, hlen]
  · intro k hk hlen
    have hw := versionWord_of_versionTag hk
    have hnl : ¬ (splitDot (goTrimSpace (resp.drop (k + 8)))).length < 3 := by omega
    simp [getVersion, hw, hk, hnl]
  · intro s hs
    unfold goAtoiSyntaxOk at hs
    unfold goAtoi goAtoiMag
    cases hd : digitsVal (signSplit s).2 with
    | none => simp
    | some m => rw [hd] at hs; simp at hs

/-- Witness for the amended C8: `"Version 1.2.beta"` parses to
`(1, 2, 0)` — the unparsable third field defaults to 0 without aborting
the call. -/
theorem getVersion_tolerant_witness :
    getVersion (String.toList "Version 1.2.beta") = some (1, 2, 0) ∧
      goAtoi (String.toList "beta") = 0 := by
  have h := getVersion_parses_tolerantly (String.toList "Version 1.2.beta")
  refine ⟨?_, h.2.2.2 (String.toList "beta") (by decide)⟩
  have h3 := h.2.2.1 0 (by decide) (by decide)
  rw [h3]
  decide

/-! ### Calibration plan (`BuildCalibrationPlan`, src/unnamed/part_004
lines 24-61) -/

/-- `CalStepKind` of package modern. -/
inductive StepKind where
  | zero
  | weight
  deriving DecidableEq, Repr, Inhabited

/-- Left-pad a numeral with zeros to width `w` (`fmt.Sprintf("%0*d")` for
non-negative values). -/
def zeroPad (w : Nat) (s : String) : String :=
  String.mk (List.replicate (w - s.length) '0') ++ s

/-- A `CalStep` of package modern. The prompt of a weight step interpolates
`models.BAY(j/6)`, `models.LMR((j/2)%3)` and `models.FB(j%2)`; those label
helpers live in the `models` package, which is not part of the sources, so
— modelled from the spec ("Bay = index/6, Side = (index/2) mod 3,
FrontBack = index mod 2") — the prompt's placement is represented by the
numeric arguments handed to them (`none` for the zero step, whose prompt
has no placement). -/
structure CalStepL where
  kind : StepKind
  index : Int
  label : String
  placement : Option (Nat × Nat × Nat)
  deriving DecidableEq, Repr, Inhabited

/-- `BuildCalibrationPlan` (guards `len(p.BARS) == 0` and `nlcs <= 0`,
then the zero step followed by `nloads = 3*(nbars-1)*nlcs` weight steps).
`p == nil` has no counterpart for a value-typed bar count. -/
def buildCalibrationPlan (barCount : Nat) (nlcs : Int) : Option (List CalStepL × Int) :=
  if barCount = 0 then none
  else if nlcs ≤ 0 then none
  else
    let nloads : Int := 3 * ((barCount : Int) - 1) * nlcs
    let steps : List CalStepL :=
      { kind := .zero, index := -1, label := "[ZERO]", placement := none } ::
        (List.range nloads.toNat).map fun (j : Nat) =>
          { kind := .weight, index := (j : Int),
            label := "[" ++ zeroPad 4 (toString (j + 1)) ++ "]",
            placement := some (j / 6, j / 2 % 3, j % 2) }
    some (steps, nloads)

/-- The steps of the plan (first component, empty when the build fails). -/
def planSteps (barCount : Nat) (nlcs : Int) : List CalStepL :=
  ((buildCalibrationPlan barCount nlcs).getD ([], 0)).1

/-- The weight-step count `N` of the plan (second component). -/
def planLoads (barCount : Nat) (nlcs : Int) : Int :=
  ((buildCalibrationPlan barCount nlcs).getD ([], 0)).2

/-- **C2 counterexample.** For 2 bars and `NLCs = 1` the plan has `N = 3`
weight steps; the coordinates `side = 1` and `frontBack = 1` each occur,
yet no weight step carries the combination `(bay, side, frontBack) =
(0, 1, 1)` — the coordinate triples do not cover every combination. -/
theorem plan_coverage_counterexample :
    (buildCalibrationPlan 2 1).isSome = true ∧
      planLoads 2 1 = 3 ∧
      (∃ s ∈ planSteps 2 1, s.placement = some (0, 1, 0)) ∧
      (∃ s ∈ planSteps 2 1, s.placement = some (0, 0, 1)) ∧
      ¬ (∃ s ∈ planSteps 2 1, s.placement = some (0, 1, 1)) := by
  decide

/-- **C2 amended.** For every bar count ≥ 1 and `NLCs > 0` the build
succeeds with exactly `1 + 3·(barCount−1)·NLCs` steps; step 0 is the Zero
step; the weight step of zero-based index `j` carries the placement
coordinates `(j/6, (j/2) mod 3, j mod 2)`; distinct indices give distinct
coordinate triples, and when `6 ∣ N` the triples cover the full grid
`[0, N/6) × [0, 3) × [0, 2)` exactly once (for `6 ∤ N` the sweep is
injective but leaves part of the final bay uncovered). -/
theorem plan_structure (barCount : Nat) (nlcs : Int)
    (h1 : 1 ≤ barCount) (h2 : 0 < nlcs) :
    (buildCalibrationPlan barCount nlcs).isSome = true ∧
      planLoads barCount nlcs = 3 * ((barCount : Int) - 1) * nlcs ∧
      (planSteps barCount nlcs).length = 1 + (planLoads barCount nlcs).toNat ∧
      ((planSteps barCount nlcs).getD 0 default).kind = .zero ∧
      (∀ j, j < (planLoads barCount nlcs).toNat →
        ((planSteps barCount nlcs).getD (j + 1) default).kind = .weight ∧
          ((planSteps barCount nlcs).getD (j + 1) default).placement =
            some (j / 6, j / 2 % 3, j % 2)) ∧
      (∀ j1 j2, j1 < (planLoads barCount nlcs).toNat →
        j2 < (planLoads barCount nlcs).toNat →
        (j1 / 6, j1 / 2 % 3, j1 % 2) = (j2 / 6, j2 / 2 % 3, j2 % 2) →
        j1 = j2) ∧
      ((6 : Int) ∣ planLoads barCount nlcs →
        ∀ b s f, b < (planLoads barCount nlcs).toNat / 6 → s < 3 → f < 2 →
          ∃ j, j < (planLoads barCount nlcs).toNat ∧
            ((planSteps barCount nlcs).getD (j + 1) default).placement =
              some (b, s, f)) := by
  have hb : ¬ barCount = 0 := by omega
  have hn : ¬ nlcs ≤ 0 := by omega
  have hplan : buildCalibrationPlan barCount nlcs =
      some ({ kind := .zero, index := -1, label := "[ZERO]", placement := none } ::
        (List.range (3 * ((barCount : Int) - 1) * nlcs).toNat).map (fun (j : Nat) =>
          { kind := .weight, index := (j : Int),
            label := "[" ++ zeroPad 4 (toString (j + 1)) ++ "]",
            placement := some (j / 6, j / 2 % 3, j % 2) }),
        3 * ((barCount : Int) - 1) * nlcs) := by
    simp [buildCalibrationPlan, hb, hn]
  have hsteps : planSteps barCount nlcs =
      { kind := .zero, index := -1, label := "[ZERO]", placement := none } ::
        (List.range (3 * ((barCount : Int) - 1) * nlcs).toNat).map (fun (j : Nat) =>
          { kind := .weight, index := (j : Int),
            label := "[" ++ zeroPad 4 (toString (j + 1)) ++ "]",
            placement := some (j / 6, j / 2 % 3, j % 2) }) := by
    simp [planSteps, hplan]
  have hloads : planLoads barCount nlcs = 3 * ((barCount : Int) - 1) * nlcs := by
    simp [planLoads, hplan]
  have hget : ∀ j, j < (planLoads barCount nlcs).toNat →
      (planSteps barCount nlcs).getD (j + 1) default =
        { kind := .weight, index := (j : Int),
          label := "[" ++ zeroPad 4 (toString (j + 1)) ++ "]",
          placement := some (j / 6, j / 2 % 3, j % 2) } := by
    intro j hj
    rw [hloads] at hj
    rw [hsteps]
    rw [List.getD_cons_succ]
    rw [List.getD_eq_getElem?_getD, List.getElem?_map, List.getElem?_range hj]
    rfl
  refine ⟨by simp [hplan], hloads, ?_, ?_, ?_, ?_, ?_⟩
  · rw [hsteps, hloads]
    simp
    omega
  · rw [hsteps]
    rfl
  · intro j hj
    rw [hget j hj]
    exact ⟨rfl, rfl⟩
  · intro j1 j2 _ _ heq
    simp only [Prod.mk.injEq] at heq
    omega
  · intro hdvd b s f hbnd hs hf
    rw [hloads] at hdvd hbnd ⊢
    set N : Int := 3 * ((barCount : Int) - 1) * nlcs with hN
    have hN0 : 0 ≤ N := by
      have h1' : (1 : Int) ≤ (barCount : Int) := by exact_mod_cast h1
      have h2' : (0 : Int) < nlcs := h2
      nlinarith
    have hdvd6 : N.toNat % 6 = 0 := by
      obtain ⟨c, hc⟩ := hdvd
      have hc0 : 0 ≤ c := by nlinarith
      have : N.toNat = 6 * c.toNat := by omega
      omega
    refine ⟨6 * b + 2 * s + f, by omega, ?_⟩
    rw [hget (6 * b + 2 * s + f) (by rw [hloads]; omega)]
    have e1 : (6 * b + 2 * s + f) / 6 = b := by omega
    have e2 : (6 * b + 2 * s + f) / 2 % 3 = s := by omega
    have e3 : (6 * b + 2 * s + f) % 2 = f := by omega
    rw [e1, e2, e3]

/-- Witness for the amended C2: 3 bars, `NLCs = 1`, so `N = 6` and the
coverage clause is live. -/
theorem plan_structure_witness :
    (buildCalibrationPlan 3 1).isSome = true ∧
      planLoads 3 1 = 3 * ((3 : Int) - 1) * 1 ∧
      (planSteps 3 1).length = 1 + (planLoads 3 1).toNat ∧
      ((planSteps 3 1).getD 0 default).kind = .zero ∧
      (∀ j, j < (planLoads 3 1).toNat →
        ((planSteps 3 1).getD (j + 1) default).kind = .weight ∧
          ((planSteps 3 1).getD (j + 1) default).placement =
            some (j / 6, j / 2 % 3, j % 2)) ∧
      (∀ j1 j2, j1 < (planLoads 3 1).toNat → j2 < (planLoads 3 1).toNat →
        (j1 / 6, j1 / 2 % 3, j1 % 2) = (j2 / 6, j2 / 2 % 3, j2 % 2) →
        j1 = j2) ∧
      ((6 : Int) ∣ planLoads 3 1 →
        ∀ b s f, b < (planLoads 3 1).toNat / 6 → s < 3 → f < 2 →
          ∃ j, j < (planLoads 3 1).toNat ∧
            ((planSteps 3 1).getD (j + 1) default).placement =
              some (b, s, f)) :=
  plan_structure 3 1 (by decide) (by decide)

/-! ### Matrix kernel and IEEE-754 helper

Modelled from the spec: the `matrix` package is not among the sources
(only its call sites are). Spec §4.2 describes a dense matrix/vector
abstraction with construction, row get/set, elementwise subtraction,
matrix–vector multiplication, a pseudoinverse via SVD returning a
recoverable failure, and a helper converting a `float32` to its
8-hex-digit big-endian IEEE-754 bit representation. -/

/-- Modelled from the spec: the dense `matrix.Matrix` (fields `Rows`,
`Cols`, `Values`). -/
structure MatrixQ where
  rowsN : Nat
  colsN : Nat
  values : List (List ℚ)
  deriving DecidableEq, Repr, Inhabited

/-- Modelled from the spec: `matrix.NewMatrix` (zero-filled). -/
def newMatrix (r c : Nat) : MatrixQ :=
  ⟨r, c, List.replicate r (List.replicate c 0)⟩

/-- Modelled from the spec: `matrix.NewVectorWithValue`. -/
def newVectorWithValue (n : Nat) (v : ℚ) : List ℚ :=
  List.replicate n v

/-- Modelled from the spec: elementwise `Matrix.Sub`. -/
def matSub (a b : MatrixQ) : MatrixQ :=
  ⟨a.rowsN, a.colsN, List.zipWith (List.zipWith (fun x y => x - y)) a.values b.values⟩

/-- Modelled from the spec: `Matrix.GetRow`. -/
def matGetRow (m : MatrixQ) (i : Nat) : List ℚ :=
  m.values.getD i []

/-- Modelled from the spec: `Matrix.SetRow`. -/
def matSetRow (m : MatrixQ) (i : Nat) (v : List ℚ) : MatrixQ :=
  ⟨m.rowsN, m.colsN, m.values.set i v⟩

/-- Dot product of two vectors (over the shorter length). -/
def dotQ (xs ys : List ℚ) : ℚ :=
  (List.zipWith (fun x y => x * y) xs ys).sum

/-- Modelled from the spec: `Matrix.MulVector` (row-by-row dot products). -/
def matMulVec (m : MatrixQ) (w : List ℚ) : List ℚ :=
  m.values.map fun row => dotQ row w

/-- Round a rational to the nearest integer, ties to even: the IEEE-754
default rounding used by Go's `float64` → `float32` conversion. -/
def rneInt (q : ℚ) : ℤ :=
  let f := ⌊q⌋
  let r := q - (f : ℚ)
  if r < 1 / 2 then f
  else if 1 / 2 < r then f + 1
  else if f % 2 = 0 then f else f + 1

/-- `2^z` as a rational, for a signed exponent. -/
def ratPow2 (z : ℤ) : ℚ :=
  if 0 ≤ z then ((2 ^ z.toNat : ℕ) : ℚ) else 1 / ((2 ^ (-z).toNat : ℕ) : ℚ)

/-- Modelled from the spec (and Go conversion semantics): the IEEE-754
single-precision bit pattern nearest to `q` (round to nearest, ties to
even), the value Go's `float32(x)` conversion stores; magnitudes at or
beyond `2^128` overflow to the infinity pattern. Composed with `hex8`
below it models `matrix.ToIEEE754` followed by `fmt.Sprintf("%08X")`. -/
def float32bitsOfRat (q : ℚ) : Nat :=
  if q = 0 then 0
  else
    let s : Nat := if q < 0 then 2 ^ 31 else 0
    let a := |q|
    let e : ℤ := Int.log 2 a
    if e < -126 then
      let m := (rneInt (a * 2 ^ 149)).toNat
      if m = 0 then s
      else if m < 2 ^ 23 then s + m
      else s + 2 ^ 23
    else
      let m := (rneInt (a / ratPow2 e * 2 ^ 23)).toNat
      let eBumped : ℤ := if m = 2 ^ 24 then e + 1 else e
      let mBumped : Nat := if m = 2 ^ 24 then 2 ^ 23 else m
      if 127 < eBumped then s + 255 * 2 ^ 23
      else s + (eBumped + 127).toNat * 2 ^ 23 + (mBumped - 2 ^ 23)

/-- Uppercase hexadecimal digit. -/
def hexDigit (n : Nat) : Char :=
  if n < 10 then Char.ofNat (48 + n) else Char.ofNat (55 + n)

/-- `fmt.Sprintf("%08X", u)` for `u < 2^32`: exactly 8 uppercase hex
digits. -/
def hex8 (u : Nat) : String :=
  String.mk ((List.range 8).map fun k => hexDigit (u / 16 ^ (7 - k) % 16))

/-- Go's `uint64(x)` conversion of a non-negative float: truncation toward
zero (negative or out-of-range inputs are implementation-specific in Go;
the theorems only use non-negative values). -/
def ratTruncZ (q : ℚ) : ℤ :=
  if 0 ≤ q then ⌊q⌋ else -⌊-q⌋

/-! ### Matrix assembly and the calibration solve (src/unnamed/part_004) -/

/-- `UpdateMatrixZero` (part_004 lines 63-74): an
`(calibs*nlcs) × (nbars*nlcs)` matrix whose `SetRow` loop writes the
flattened zero sample into every row. -/
def updateMatrixZero (flat : List ℤ) (calibs nlcs : Nat) : MatrixQ :=
  let ad : List ℚ := flat.map fun (v : ℤ) => (v : ℚ)
  let nbars := flat.length / nlcs
  ⟨calibs * nlcs, nbars * nlcs, List.replicate (calibs * nlcs) ad⟩

/-- `UpdateMatrixWeight` (part_004 lines 76-85): overwrite the first
`nbars*nlcs` entries of row `index` with the flattened sample. -/
def updateMatrixWeight (adc : MatrixQ) (flat : List ℤ) (index : Nat) (nlcs : Nat) :
    MatrixQ :=
  let nbars := flat.length / nlcs
  let row := adc.values.getD index []
  let rowNew := (List.range row.length).map fun k =>
    if k < nbars * nlcs then ((flat.getD k 0 : ℤ) : ℚ) else row.getD k 0
  matSetRow adc index rowNew

/-- One `models.LC` calibration record: `ZERO` (a `uint64`), `FACTOR`
(a `float32`, represented by its IEEE-754 bit pattern) and `IEEE`
(the 8-hex-digit string). -/
structure LCRec where
  zero : ℤ
  factorBits : Nat
  ieee : String
  deriving DecidableEq, Repr, Inhabited

/-- `ComputeZerosAndFactors` (part_004 lines 89-123). The pseudoinverse
`InverseSVD` lives in the missing `matrix` package; modelled from the
spec ("Moore–Penrose pseudoinverse via SVD … return a recoverable failure
signal") as an opaque parameter `pinvFn` returning `none` on
decomposition failure. Output: the per-bar lists `p.BARS[i].LC`. -/
def computeZerosAndFactors (pinvFn : MatrixQ → Option MatrixQ)
    (adv ad0 : MatrixQ) (weight : ℚ) (nbars : Nat) :
    Option (List (List LCRec)) :=
  let add := matSub adv ad0
  let w := newVectorWithValue adv.rowsN weight
  match pinvFn add with
  | none => none
  | some adi =>
    let factors := matMulVec adi w
    let zeros := matGetRow ad0 0
    let nlcs := zeros.length / nbars
    some ((List.range nbars).map fun i =>
      (List.range nlcs).map fun j =>
        let idx := i * nlcs + j
        let f := factors.getD idx 0
        { zero := ratTruncZ (zeros.getD idx 0),
          factorBits := float32bitsOfRat f,
          ieee := hex8 (float32bitsOfRat f) })

lemma getD_range_map {α : Type} (f : Nat → α) {n i : Nat} (h : i < n) (d : α) :
    ((List.range n).map f).getD i d = f i := by
  rw [List.getD_eq_getElem?_getD, List.getElem?_map, List.getElem?_range h]
  rfl

lemma getD_map_cast (flat : List ℤ) {idx : Nat} (h : idx < flat.length) :
    (flat.map fun (v : ℤ) => (v : ℚ)).getD idx 0 = ((flat.getD idx 0 : ℤ) : ℚ) := by
  have h2 : idx < (flat.map fun (v : ℤ) => (v : ℚ)).length := by
    simpa using h
  rw [List.getD_eq_getElem _ _ h2, List.getElem_map, List.getD_eq_getElem _ _ h]

/-- **C1.** `ComputeZerosAndFactors` on completed matrices: `Ad0` built by
`UpdateMatrixZero` from the flattened non-negative zero sample, `Adv` any
matrix with the `N = 3·(nbars−1)·nlcs` rows a completed weight matrix
has, any pseudoinverse result `adi`. For every bar `i` and channel `j`
with `index = i·nlcs + j`, the stored record has
`Zero = round(zeros[index])` (where `zeros` is row 0 of `Ad0`),
`Factor = float32(factors[index])` (where
`factors = pinv(Adv − Ad0) · W` and `W` is the constant vector of length
`N` filled with the nominal weight), and `FactorHex` the 8-hex-digit
IEEE-754 encoding of that factor. Two bars at least: with a single bar
the zero matrix has no rows and row 0 is empty. -/
theorem solve_assembles_coefficients
    (pinvFn : MatrixQ → Option MatrixQ) (adv : MatrixQ) (flat : List ℤ)
    (weight : ℚ) (nbars nlcs : Nat) (adi : MatrixQ)
    (hb : 2 ≤ nbars) (hn : 0 < nlcs)
    (hflat : flat.length = nbars * nlcs)
    (hpos : ∀ v ∈ flat, 0 ≤ v)
    (hrows : adv.rowsN = 3 * (nbars - 1) * nlcs)
    (hpinv : pinvFn (matSub adv (updateMatrixZero flat (3 * (nbars - 1)) nlcs)) =
      some adi) :
    (computeZerosAndFactors pinvFn adv (updateMatrixZero flat (3 * (nbars - 1)) nlcs)
        weight nbars).isSome = true ∧
      ∀ i, i < nbars → ∀ j, j < nlcs →
        ((((computeZerosAndFactors pinvFn adv
              (updateMatrixZero flat (3 * (nbars - 1)) nlcs) weight nbars).getD
            []).getD i []).getD j default) =
          { zero := round ((matGetRow (updateMatrixZero flat (3 * (nbars - 1)) nlcs)
              0).getD (i * nlcs + j) 0),
            factorBits := float32bitsOfRat ((matMulVec adi
              (newVectorWithValue (3 * (nbars - 1) * nlcs) weight)).getD
                (i * nlcs + j) 0),
            ieee := hex8 (float32bitsOfRat ((matMulVec adi
              (newVectorWithValue (3 * (nbars - 1) * nlcs) weight)).getD
                (i * nlcs + j) 0)) } := by
  have hNpos : 0 < 3 * (nbars - 1) * nlcs :=
    Nat.mul_pos (Nat.mul_pos (by omega) (by omega)) hn
  have hzeros : matGetRow (updateMatrixZero flat (3 * (nbars - 1)) nlcs) 0 =
      flat.map fun (v : ℤ) => (v : ℚ) := by
    simp only [updateMatrixZero, matGetRow]
    obtain ⟨k, hk⟩ : ∃ k, 3 * (nbars - 1) * nlcs = k + 1 :=
      ⟨3 * (nbars - 1) * nlcs - 1, by omega⟩
    rw [hk, List.replicate_succ]
    rfl
  have hzlen : (matGetRow (updateMatrixZero flat (3 * (nbars - 1)) nlcs) 0).length =
      nbars * nlcs := by
    rw [hzeros, List.length_map, hflat]
  have hnl : (matGetRow (updateMatrixZero flat (3 * (nbars - 1)) nlcs) 0).length /
      nbars = nlcs := by
    rw [hzlen, Nat.mul_div_cancel_left _ (by omega)]
  have hmain : computeZerosAndFactors pinvFn adv
      (updateMatrixZero flat (3 * (nbars - 1)) nlcs) weight nbars =
      some ((List.range nbars).map fun i =>
        (List.range nlcs).map fun j =>
          { zero := ratTruncZ ((matGetRow (updateMatrixZero flat (3 * (nbars - 1)) nlcs)
              0).getD (i * nlcs + j) 0),
            factorBits := float32bitsOfRat ((matMulVec adi (newVectorWithValue
              adv.rowsN weight)).getD (i * nlcs + j) 0),
            ieee := hex8 (float32bitsOfRat ((matMulVec adi (newVectorWithValue
              adv.rowsN weight)).getD (i * nlcs + j) 0)) }) := by
    simp only [computeZerosAndFactors, hpinv, hnl]
  refine ⟨by rw [hmain]; rfl, ?_⟩
  intro i hi j hj
  rw [hmain]
  have hidx : i * nlcs + j < nbars * nlcs := by
    calc i * nlcs + j < i * nlcs + nlcs := by omega
    _ = (i + 1) * nlcs := by ring
    _ ≤ nbars * nlcs := Nat.mul_le_mul_right _ (by omega)
  have hidxf : i * nlcs + j < flat.length := by omega
  have hk0 : 0 ≤ flat.getD (i * nlcs + j) 0 := by
    rw [List.getD_eq_getElem _ _ hidxf]
    exact hpos _ (List.getElem_mem hidxf)
  have hzv : (matGetRow (updateMatrixZero flat (3 * (nbars - 1)) nlcs) 0).getD
      (i * nlcs + j) 0 = ((flat.getD (i * nlcs + j) 0 : ℤ) : ℚ) := by
    rw [hzeros, getD_map_cast flat hidxf]
  have htr : ratTruncZ ((matGetRow (updateMatrixZero flat (3 * (nbars - 1)) nlcs)
      0).getD (i * nlcs + j) 0) =
      round ((matGetRow (updateMatrixZero flat (3 * (nbars - 1)) nlcs) 0).getD
        (i * nlcs + j) 0) := by
    rw [hzv]
    unfold ratTruncZ
    rw [if_pos (by exact_mod_cast hk0)]
    rw [Int.floor_intCast, round_intCast]
  simp only [Option.getD_some]
  rw [getD_range_map _ hi, getD_range_map _ hj, htr, hrows]

/-- Witness for C1: two bars, one channel each, zero sample `[5, 6]`,
nominal weight 500, a concrete pseudoinverse result. -/
theorem solve_assembles_coefficients_witness :
    (computeZerosAndFactors (fun _ => some ⟨2, 3, [[1, 0, 0], [0, 0, 0]]⟩)
        ⟨3, 2, [[1, 2], [3, 4], [5, 6]]⟩
        (updateMatrixZero [5, 6] (3 * (2 - 1)) 1) 500 2).isSome = true ∧
      ∀ i, i < 2 → ∀ j, j < 1 →
        ((((computeZerosAndFactors (fun _ => some ⟨2, 3, [[1, 0, 0], [0, 0, 0]]⟩)
              ⟨3, 2, [[1, 2], [3, 4], [5, 6]]⟩
              (updateMatrixZero [5, 6] (3 * (2 - 1)) 1) 500 2).getD
            []).getD i []).getD j default) =
          { zero := round ((matGetRow (updateMatrixZero [5, 6] (3 * (2 - 1)) 1)
              0).getD (i * 1 + j) 0),
            factorBits := float32bitsOfRat ((matMulVec ⟨2, 3, [[1, 0, 0], [0, 0, 0]]⟩
              (newVectorWithValue (3 * (2 - 1) * 1) 500)).getD (i * 1 + j) 0),
            ieee := hex8 (float32bitsOfRat ((matMulVec ⟨2, 3, [[1, 0, 0], [0, 0, 0]]⟩
              (newVectorWithValue (3 * (2 - 1) * 1) 500)).getD (i * 1 + j) 0)) } :=
  solve_assembles_coefficients (fun _ => some ⟨2, 3, [[1, 0, 0], [0, 0, 0]]⟩)
    ⟨3, 2, [[1, 2], [3, 4], [5, 6]]⟩ [5, 6] 500 2 1
    ⟨2, 3, [[1, 0, 0], [0, 0, 0]]⟩ (by omega) (by omega) (by decide)
    (by intro v hv; fin_cases hv <;> decide) rfl rfl

/-! ### Flash payloads (src/modern/flash.go lines 103-153, matching
`WriteZeros`/`WriteFactors` in src/serial/leo485.go) -/

/-- `fmt.Sprintf("%09d", n)` for a non-negative value: the decimal digits
left-padded with zeros to width 9. -/
def fmt09d (n : Nat) : String :=
  zeroPad 9 (toString n)

/-- `fmt.Sprintf("%09.0f", q)` for the non-negative integral values the
zero payload formats (a float64 holding a `uint64` zero): round to an
integer (ties to even, a no-op on integral inputs) and zero-pad to
width 9. -/
def fmt09f (q : ℚ) : String :=
  zeroPad 9 (toString (rneInt q).toNat)

/-- `fmt.Sprintf("%.10f", q)`: ten decimal places, rounded. -/
def fmt10f (q : ℚ) : String :=
  let m := (rneInt (|q| * 10 ^ 10)).toNat
  let s := toString (m / 10 ^ 10) ++ "." ++ zeroPad 10 (toString (m % 10 ^ 10))
  if q < 0 then "-" ++ s else s

/-- The 4-position slot loop of the zeros payload: position `ii` emits the
next zero (counter `k`) when bit `ii` of the channel mask is set, else the
placeholder `"%09d" of 0`. -/
def zeroSlots (lcs : Nat) (zeros : List Nat) : List Nat → Nat → String
  | [], _ => ""
  | ii :: rest, k =>
    if Nat.testBit lcs ii then
      fmt09f ((zeros.getD k 0 : Nat) : ℚ) ++ "|" ++ zeroSlots lcs zeros rest (k + 1)
    else
      fmt09d 0 ++ "|" ++ zeroSlots lcs zeros rest k

/-- The zeros payload of `FlashParameters` for one bar: `zeros` are the
`uint64` `ZERO` values of the bar's LC records (in order), `factors` the
float64 values of its `FACTOR` fields; `nlcs := len(LC) = zeros.length`.
Mirrors flash.go lines 103-127: `zeravg = Σ zero·factor`, clamped to ≥ 0,
then `"O"`, the 4 slots, and `"%09d|"` of
`uint64(zeravg/float64(nlcs) + 0.5)`. -/
def flashZerosPayload (lcs : Nat) (zeros : List Nat) (factors : List ℚ) : String :=
  let zeravg0 := (List.zipWith (fun (z : Nat) (f : ℚ) => (z : ℚ) * f) zeros factors).sum
  let zeravg := if zeravg0 < 0 then 0 else zeravg0
  "O" ++ zeroSlots lcs zeros [0, 1, 2, 3] 0 ++
    fmt09d (ratTruncZ (zeravg / (zeros.length : ℚ) + 1 / 2)).toNat ++ "|"

/-- The factors payload of `FlashParameters` for one bar (flash.go lines
144-153): `"X"`, then per position its factor `"%.10f|"` when active,
else the literal `"1.0000000000|"`. -/
def factorSlots (lcs : Nat) (factors : List ℚ) : List Nat → Nat → String
  | [], _ => ""
  | ii :: rest, k =>
    if Nat.testBit lcs ii then
      fmt10f (factors.getD k 0) ++ "|" ++ factorSlots lcs factors rest (k + 1)
    else
      "1.0000000000|" ++ factorSlots lcs factors rest k

/-- The complete factors payload for one bar. -/
def flashFactorsPayload (lcs : Nat) (factors : List ℚ) : String :=
  "X" ++ factorSlots lcs factors [0, 1, 2, 3] 0

lemma rneInt_natCast (z : Nat) : rneInt ((z : ℚ)) = (z : ℤ) := by
  unfold rneInt
  rw [show ((z : ℚ)) = (((z : ℤ) : ℚ)) by push_cast; rfl, Int.floor_intCast]
  norm_num

lemma fmt09f_natCast (z : Nat) : fmt09f ((z : ℚ)) = fmt09d z := by
  unfold fmt09f fmt09d
  rw [rneInt_natCast]
  simp

/-- **C7.** The zeros payload is the literal `"O"`, then 4 fixed slots —
for each channel position `ii` in order, the next zero value (the one at
index "number of set bits below `ii`") as a 9-digit zero-padded integer
followed by `"|"` when bit `ii` is set, else `"000000000|"` — followed by
the weighted zero-average as a 9-digit zero-padded integer and `"|"`. The
weighted zero-average is `Σ(zero·factor)` over the bar's channel records,
clamped to ≥ 0, divided by `NLCs`, rounded to the nearest integer
(`⌊x + 1/2⌋`). `NLCs > 0` because Go's float division by an `NLCs` of
zero would produce an infinity, outside this exact model. -/
theorem zeros_payload_structure (lcs : Nat) (zeros : List Nat) (factors : List ℚ)
    (hnz : 0 < zeros.length) :
    flashZerosPayload lcs zeros factors =
      "O" ++
      (if Nat.testBit lcs 0 then fmt09d (zeros.getD 0 0) ++ "|"
        else "000000000|") ++
      (if Nat.testBit lcs 1 then
          fmt09d (zeros.getD ((if Nat.testBit lcs 0 then 1 else 0)) 0) ++ "|"
        else "000000000|") ++
      (if Nat.testBit lcs 2 then
          fmt09d (zeros.getD ((if Nat.testBit lcs 0 then 1 else 0) +
            (if Nat.testBit lcs 1 then 1 else 0)) 0) ++ "|"
        else "000000000|") ++
      (if Nat.testBit lcs 3 then
          fmt09d (zeros.getD ((if Nat.testBit lcs 0 then 1 else 0) +
            (if Nat.testBit lcs 1 then 1 else 0) +
            (if Nat.testBit lcs 2 then 1 else 0)) 0) ++ "|"
        else "000000000|") ++
      fmt09d (⌊(if (List.zipWith (fun (z : Nat) (f : ℚ) => (z : ℚ) * f) zeros
            factors).sum < 0 then 0
          else (List.zipWith (fun (z : Nat) (f : ℚ) => (z : ℚ) * f) zeros
            factors).sum) / (zeros.length : ℚ) + 1 / 2⌋).toNat ++ "|" := by
  have hplaceholder : fmt09d 0 ++ "|" = "000000000|" := by decide
  have havg : ∀ x : ℚ, 0 ≤ x → ratTruncZ (x / (zeros.length : ℚ) + 1 / 2) =
      ⌊x / (zeros.length : ℚ) + 1 / 2⌋ := by
    intro x hx
    unfold ratTruncZ
    rw [if_pos]
    positivity
  have hclamp : (0 : ℚ) ≤ if (List.zipWith (fun (z : Nat) (f : ℚ) => (z : ℚ) * f)
      zeros factors).sum < 0 then 0
      else (List.zipWith (fun (z : Nat) (f : ℚ) => (z : ℚ) * f) zeros factors).sum := by
    split
    · exact le_refl 0
    · linarith [not_lt.mp (by assumption :
        ¬ (List.zipWith (fun (z : Nat) (f : ℚ) => (z : ℚ) * f) zeros factors).sum < 0)]
  simp only [flashZerosPayload]
  rw [havg _ hclamp]
  rcases h0 : Nat.testBit lcs 0 <;> rcases h1 : Nat.testBit lcs 1 <;>
    rcases h2 : Nat.testBit lcs 2 <;> rcases h3 : Nat.testBit lcs 3 <;>
    (simp [zeroSlots, h0, h1, h2, h3, fmt09f_natCast, hplaceholder,
      String.append_assoc] <;> rfl)

/-- Witness for C7: mask `0b0101` (channels 0 and 2 active), zeros
`[3, 700]`, factors `[2, 1/2]`. -/
theorem zeros_payload_structure_witness :
    flashZerosPayload 5 [3, 700] [2, 1 / 2] =
      "O" ++
      (if Nat.testBit 5 0 then fmt09d ([3, 700].getD 0 0) ++ "|"
        else "000000000|") ++
      (if Nat.testBit 5 1 then
          fmt09d ([3, 700].getD ((if Nat.testBit 5 0 then 1 else 0)) 0) ++ "|"
        else "000000000|") ++
      (if Nat.testBit 5 2 then
          fmt09d ([3, 700].getD ((if Nat.testBit 5 0 then 1 else 0) +
            (if Nat.testBit 5 1 then 1 else 0)) 0) ++ "|"
        else "000000000|") ++
      (if Nat.testBit 5 3 then
          fmt09d ([3, 700].getD ((if Nat.testBit 5 0 then 1 else 0) +
            (if Nat.testBit 5 1 then 1 else 0) +
            (if Nat.testBit 5 2 then 1 else 0)) 0) ++ "|"
        else "000000000|") ++
      fmt09d (⌊(if (List.zipWith (fun (z : Nat) (f : ℚ) => (z : ℚ) * f) [3, 700]
            [2, 1 / 2]).sum < 0 then 0
          else (List.zipWith (fun (z : Nat) (f : ℚ) => (z : ℚ) * f) [3, 700]
            [2, 1 / 2]).sum) / (([3, 700] : List Nat).length : ℚ) + 1 / 2⌋).toNat ++
        "|" :=
  zeros_payload_structure 5 [3, 700] [2, 1 / 2] (by decide)

/-! ### Sampling engine (`SampleADCs`, src/modern/sample.go lines 36-176) -/

/-- One `readOnce` cycle: per bar the raw row. `resp i` is the byte-level
result of `bars.GetADs(i)` for this cycle; a read error and an empty
reading leave the zero-initialized row untouched, exactly as the
`err == nil && len(bruts) > 0` guard does (`GetADs` itself maps every
parse failure to an empty slice, leo485.go lines 56-74). -/
def readOnce (nBars nlcs : Nat) (resp : Nat → List ℤ) : List (List ℤ) :=
  (List.range nBars).map fun i =>
    let bruts := resp i
    if bruts.length = 0 then List.replicate nlcs 0
    else (List.range nlcs).map fun lc =>
      if lc < bruts.length then bruts.getD lc 0 else 0

/-- The averaging loop of `SampleADCs`: `n` remaining cycles starting at
bus cycle `cycle`, threading the per-(bar, channel) sums and counts, both
incremented every cycle. -/
def avgPhase (resp : Nat → Nat → List ℤ) (nBars nlcs : Nat) :
    Nat → Nat → List (List ℤ) × List (List ℤ) → List (List ℤ) × List (List ℤ)
  | _, 0, sc => sc
  | cycle, n + 1, (sums, counts) =>
    let cur := readOnce nBars nlcs (resp cycle)
    avgPhase resp nBars nlcs (cycle + 1) n
      (List.zipWith (List.zipWith (fun s c => s + c)) sums cur,
        List.zipWith (List.zipWith (fun c _ => c + 1)) counts cur)

/-- `SampleADCs`: guards, then the initial live tick (bus cycle 0), the
ignore phase (cycles `1 .. ignoreTarget`, read and discarded), the
averaging phase, and the flat bar-major result of the integer-truncated
division of each sum by its count. `resp cycle bar` is the reading the bus
returns for that bar on that cycle. -/
def sampleADCs (resp : Nat → Nat → List ℤ) (nBars nlcs : Nat)
    (ignoreTarget avgTarget : ℤ) : Option (List ℤ) :=
  if nBars = 0 then none
  else
    let ignoreT := if ignoreTarget < 0 then 0 else ignoreTarget
    if avgTarget ≤ 0 then none
    else
      let sums0 : List (List ℤ) := List.replicate nBars (List.replicate nlcs 0)
      let counts0 : List (List ℤ) := List.replicate nBars (List.replicate nlcs 0)
      let sc := avgPhase resp nBars nlcs (1 + ignoreT.toNat) avgTarget.toNat
        (sums0, counts0)
      let final := List.zipWith (List.zipWith (fun s c =>
        if 0 < c then Int.tdiv s c else 0)) sc.1 sc.2
      some final.flatten

lemma zipWith_replicate_both {α β γ : Type} (f : α → β → γ) (n : Nat) (a : α) (b : β) :
    List.zipWith f (List.replicate n a) (List.replicate n b) =
      List.replicate n (f a b) := by
  induction n with
  | zero => rfl
  | succ m ih => simp [List.replicate_succ, ih]

lemma flatten_replicate_replicate {α : Type} (n m : Nat) (a : α) :
    (List.replicate n (List.replicate m a)).flatten = List.replicate (n * m) a := by
  induction n with
  | zero => simp
  | succ k ih =>
    rw [List.replicate_succ, List.flatten_cons, ih,
      ← List.replicate_add]
    congr 1
    ring

lemma readOnce_const (nBars nlcs : Nat) (v : ℤ) :
    readOnce nBars nlcs (fun _ => List.replicate nlcs v) =
      List.replicate nBars (List.replicate nlcs v) := by
  have hbody : ∀ i : Nat,
      (if (List.replicate nlcs v).length = 0 then List.replicate nlcs (0 : ℤ)
        else (List.range nlcs).map fun lc =>
          if lc < (List.replicate nlcs v).length then
            (List.replicate nlcs v).getD lc 0 else 0) = List.replicate nlcs v := by
    intro i
    cases hn : nlcs with
    | zero => simp
    | succ m =>
      rw [if_neg (by simp)]
      have hpt : ∀ lc ∈ List.range (m + 1),
          (if lc < (List.replicate (m + 1) v).length then
            (List.replicate (m + 1) v).getD lc 0 else 0) = v := by
        intro lc hlc
        rw [List.mem_range] at hlc
        have hl : lc < (List.replicate (m + 1) v).length := by simpa using hlc
        rw [if_pos hl, List.getD_eq_getElem _ _ hl, List.getElem_replicate]
      rw [List.map_congr_left hpt, List.map_const', List.length_range]
  simp only [readOnce]
  rw [List.map_congr_left (fun i _ => hbody i), List.map_const', List.length_range]

lemma avgPhase_const (resp : Nat → Nat → List ℤ) (nBars nlcs : Nat) (v : ℤ)
    (hresp : ∀ c i, resp c i = List.replicate nlcs v) :
    ∀ n cycle (k : ℤ), avgPhase resp nBars nlcs cycle n
        (List.replicate nBars (List.replicate nlcs (k * v)),
          List.replicate nBars (List.replicate nlcs k)) =
      (List.replicate nBars (List.replicate nlcs ((k + (n : ℤ)) * v)),
        List.replicate nBars (List.replicate nlcs (k + (n : ℤ)))) := by
  intro n
  induction n with
  | zero => intro cycle k; simp [avgPhase]
  | succ m ih =>
    intro cycle k
    have hread : readOnce nBars nlcs (resp cycle) =
        List.replicate nBars (List.replicate nlcs v) := by
      have hfn : resp cycle = fun _ => List.replicate nlcs v :=
        funext fun i => hresp cycle i
      rw [hfn]
      exact readOnce_const nBars nlcs v
    simp only [avgPhase, hread]
    rw [zipWith_replicate_both, zipWith_replicate_both, zipWith_replicate_both,
      zipWith_replicate_both]
    rw [show k * v + v = (k + 1) * v by ring]
    rw [ih (cycle + 1) (k + 1)]
    have hc : k + 1 + (m : ℤ) = k + ((m : ℤ) + 1) := by ring
    push_cast
    rw [hc]

/-- **C9.** If every bus read during `SampleADCs` returns the same raw
channel vector of value `v` — for any `ignoreCount` and any
`averageCount > 0`, so in particular `ignoreCount = 2`,
`averageCount = 3` — then the flat averaged output equals `v` exactly at
every (bar, channel) position: the per-position sum of exactly
`averageCount` cycles is `averageCount·v`, and the integer-truncated
division by the count restores `v`. -/
theorem sample_constant_bus (resp : Nat → Nat → List ℤ) (nBars nlcs : Nat) (v : ℤ)
    (ignoreT avgT : ℤ)
    (hresp : ∀ c i, resp c i = List.replicate nlcs v)
    (hb : 0 < nBars) (ha : 0 < avgT) :
    sampleADCs resp nBars nlcs ignoreT avgT =
      some (List.replicate (nBars * nlcs) v) := by
  have hb' : ¬ nBars = 0 := by omega
  have ha' : ¬ avgT ≤ 0 := by omega
  simp only [sampleADCs, if_neg hb', if_neg ha']
  have hstart := avgPhase_const resp nBars nlcs v hresp avgT.toNat
    (1 + (if ignoreT < 0 then 0 else ignoreT).toNat) 0
  simp only [zero_mul, zero_add] at hstart
  rw [hstart]
  rw [zipWith_replicate_both, zipWith_replicate_both]
  have hpos : (0 : ℤ) < (avgT.toNat : ℤ) := by omega
  rw [if_pos hpos, Int.mul_tdiv_cancel_left v (by omega)]
  rw [flatten_replicate_replicate]

/-- Witness for C9: 2 bars, 2 channels, constant reading 7,
`ignoreCount = 2`, `averageCount = 3`. -/
theorem sample_constant_bus_witness :
    sampleADCs (fun _ _ => List.replicate 2 7) 2 2 2 3 =
      some (List.replicate (2 * 2) 7) :=
  sample_constant_bus (fun _ _ => List.replicate 2 7) 2 2 7 2 3
    (fun _ _ => rfl) (by omega) (by omega)

/-! ### Averaged zeros (`CollectAveragedZeros`, src/modern/test.go lines
57-143). The per-(bar, channel) running sums are modelled as a function
`Nat → ℤ` over flat indices `i*nlcs + lc`. A bar whose `GetADs` returns
an error and one that returns no bytes are both skipped by the
`err != nil || len(ad) == 0` guard, so both are modelled as `[]`. -/

/-- One sampling pass over all bars: thread the sums and the `gotAny`
flag. Channels `lc ≥ len(ad)` add `val = 0`. -/
def czBarPass (respC : Nat → List ℤ) (nb nlcs : Nat) (sums : Nat → ℤ) :
    (Nat → ℤ) × Bool :=
  (List.range nb).foldl (fun (acc : (Nat → ℤ) × Bool) i =>
    let ad := respC i
    if ad.length = 0 then acc
    else
      (fun idx =>
        if i * nlcs ≤ idx ∧ idx < i * nlcs + nlcs ∧ idx - i * nlcs < ad.length then
          acc.1 idx + ad.getD (idx - i * nlcs) 0
        else acc.1 idx, true))
    (sums, false)

/-- The sampling loop: `s` remaining cycles starting at bus cycle
`cycle`; the cycle count used for averaging increments only on a cycle
where some bar produced data. -/
def czSampleLoop (resp : Nat → Nat → List ℤ) (nb nlcs : Nat) :
    Nat → Nat → (Nat → ℤ) × Nat → (Nat → ℤ) × Nat
  | _, 0, sc => sc
  | cycle, s + 1, (sums, count) =>
    let pass := czBarPass (resp cycle) nb nlcs sums
    czSampleLoop resp nb nlcs (cycle + 1) s
      (pass.1, if pass.2 then count + 1 else count)

/-- `CollectAveragedZeros`: the `samples ≤ 0` guard, `warmup` discarded
read cycles (`p.IGNORE` when positive, else 5), the sampling loop, then
either the per-index truncated average or — when no cycle produced data —
the one-shot fallback read (bus cycle `warmup + samples`), which leaves 0
at every position of a bar that still returns no data. -/
def collectAveragedZeros (resp : Nat → Nat → List ℤ) (nb nlcs : Nat)
    (ignoreParam samples : ℤ) : Option (List ℤ) :=
  if samples ≤ 0 then none
  else
    let warmup : Nat := if 0 < ignoreParam then ignoreParam.toNat else 5
    let sc := czSampleLoop resp nb nlcs warmup samples.toNat ((fun _ => 0), 0)
    if sc.2 = 0 then
      some ((List.range (nb * nlcs)).map fun idx =>
        let ad := resp (warmup + samples.toNat) (idx / nlcs)
        if ad.length = 0 then 0
        else if idx % nlcs < ad.length then ad.getD (idx % nlcs) 0 else 0)
    else
      some ((List.range (nb * nlcs)).map fun idx =>
        Int.tdiv (sc.1 idx) (sc.2 : ℤ))

lemma czBarPass_all_empty (respC : Nat → List ℤ) (nb nlcs : Nat) (sums : Nat → ℤ)
    (h : ∀ i, i < nb → respC i = []) :
    czBarPass respC nb nlcs sums = (sums, false) := by
  unfold czBarPass
  have hgen : ∀ l : List Nat, (∀ i ∈ l, respC i = []) →
      l.foldl (fun (acc : (Nat → ℤ) × Bool) i =>
        let ad := respC i
        if ad.length = 0 then acc
        else
          (fun idx =>
            if i * nlcs ≤ idx ∧ idx < i * nlcs + nlcs ∧ idx - i * nlcs < ad.length then
              acc.1 idx + ad.getD (idx - i * nlcs) 0
            else acc.1 idx, true)) (sums, false) = (sums, false) := by
    intro l
    induction l with
    | nil => intro _; rfl
    | cons a t ih =>
      intro hmem
      rw [List.foldl_cons]
      have ha : respC a = [] := hmem a (List.mem_cons_self a t)
      simp only [ha, List.length_nil, if_pos rfl]
      exact ih fun i hi => hmem i (List.mem_cons_of_mem a hi)
  exact hgen (List.range nb) fun i hi => h i (List.mem_range.mp hi)

lemma czSampleLoop_all_empty (resp : Nat → Nat → List ℤ) (nb nlcs : Nat) :
    ∀ s cycle, (∀ d, d < s → ∀ i, i < nb → resp (cycle + d) i = []) →
      czSampleLoop resp nb nlcs cycle s ((fun _ => 0), 0) = ((fun _ => 0), 0) := by
  intro s
  induction s with
  | zero => intro cycle _; rfl
  | succ m ih =>
    intro cycle h
    have hp : czBarPass (resp cycle) nb nlcs (fun _ => 0) = ((fun _ => 0), false) :=
      czBarPass_all_empty _ _ _ _ fun i hi => by
        have := h 0 (by omega) i hi
        simpa using this
    simp only [czSampleLoop, hp]
    exact ih (cycle + 1) fun d hd i hi => by
      have := h (d + 1) (by omega) i hi
      rw [show cycle + 1 + d = cycle + (d + 1) by omega]
      exact this

/-- **C10.** If every requested sampling cycle of `CollectAveragedZeros`
yields no data from any bar (so the averaging count is 0), the call does
not fail: it performs one additional immediate read per bar and returns
that single reading as the averaged zeros, with 0 at every (bar, channel)
position whose bar still returns no data (and at channels beyond the
bar's reading). -/
theorem collect_zeros_fallback (resp : Nat → Nat → List ℤ) (nb nlcs : Nat)
    (ignoreParam samples : ℤ) (hs : 0 < samples)
    (hempty : ∀ d, d < samples.toNat → ∀ i, i < nb →
      resp ((if 0 < ignoreParam then ignoreParam.toNat else 5) + d) i = []) :
    collectAveragedZeros resp nb nlcs ignoreParam samples =
      some ((List.range (nb * nlcs)).map fun idx =>
        let ad := resp ((if 0 < ignoreParam then ignoreParam.toNat else 5) +
          samples.toNat) (idx / nlcs)
        if ad.length = 0 then 0
        else if idx % nlcs < ad.length then ad.getD (idx % nlcs) 0 else 0) := by
  have hs' : ¬ samples ≤ 0 := by omega
  simp only [collectAveragedZeros, if_neg hs']
  rw [czSampleLoop_all_empty resp nb nlcs samples.toNat
    (if 0 < ignoreParam then ignoreParam.toNat else 5)
    (fun d hd i hi => hempty d hd i hi)]
  rfl

/-- Witness for C10: 2 bars, 1 channel, warmup 1, 2 empty sampling
cycles; the fallback read sees `[9]` on bar 0 and nothing on bar 1. -/
theorem collect_zeros_fallback_witness :
    collectAveragedZeros
      (fun c i => if c < 3 then [] else if i = 0 then [9] else [])
      2 1 1 2 = some [9, 0] := by
  rw [collect_zeros_fallback
    (fun c i => if c < 3 then [] else if i = 0 then [9] else [])
    2 1 1 2 (by omega) (by decide)]
  decide

/-! ### Flashing machine (`FlashParameters`, src/modern/flash.go lines
30-174). The shared bus is modelled as `bus : Nat → String`, the response
text of the `k`-th command issued (send errors are indistinguishable from
a response lacking the expected token, which is how the source treats
them); the machine additionally records a trace of events. The byte-level
command framing (`GetCommand`, `UpdateValue`, `ChangeState`, `ReadUntil`
in the missing com.go) is modelled from the spec as the addressed
send/await exchange carrying the payload. -/

/-- One bar's flash inputs: the `LCS` channel mask and its calibration
records' `ZERO` and float64 `FACTOR` values. -/
structure BarCfg where
  lcs : Nat
  zeros : List Nat
  factors : List ℚ
  deriving DecidableEq, Repr, Inhabited

/-- Observable actions of `FlashParameters`, in bus order (sleeps
interleaved). -/
inductive FlashEv where
  | openUpdate
  | rebootCmd (bar : Nat)
  | readyCmd (bar : Nat)
  | prime
  | writeZeros (bar : Nat) (payload : String) (attempt : Nat)
  | writeFactors (bar : Nat) (payload : String) (attempt : Nat)
  | sleepMs (ms : Nat)
  deriving DecidableEq, Repr

/-- `strings.Contains(s, pat)`. -/
def hasSub (s pat : String) : Bool :=
  (firstIdx pat.toList s.toList).isSome

/-- The 3-attempt payload-write loop (`for attempt := 1; attempt <= 3`),
unrolled: succeed on the first response containing `"OK"` (no sleep),
else sleep 200 ms and retry; after the third failure the loop exits with
its sleep done and the write unconfirmed. `mk a` is the write event of
attempt `a`. Returns the events, the next bus counter, and success. -/
def writeAttempts (bus : Nat → String) (mk : Nat → FlashEv) (k : Nat) :
    List FlashEv × Nat × Bool :=
  if hasSub (bus k) "OK" then ([mk 1], k + 1, true)
  else if hasSub (bus (k + 1)) "OK" then
    ([mk 1, .sleepMs 200, mk 2], k + 2, true)
  else if hasSub (bus (k + 2)) "OK" then
    ([mk 1, .sleepMs 200, mk 2, .sleepMs 200, mk 3], k + 3, true)
  else
    ([mk 1, .sleepMs 200, mk 2, .sleepMs 200, mk 3, .sleepMs 200], k + 3, false)

/-- Per-bar body of the flash loop (flash.go lines 95-170): zeros payload
with 3 attempts, factors payload with 3 attempts, then the unverified
reboot; each write exhaustion is fatal for the whole flash. -/
def flashBar (bus : Nat → String) (k i : Nat) (bar : BarCfg) :
    List FlashEv × Nat × Option String :=
  let zp := flashZerosPayload bar.lcs bar.zeros bar.factors
  let wz := writeAttempts bus (fun a => .writeZeros i zp a) k
  if wz.2.2 = false then
    (wz.1, wz.2.1, some ("bar " ++ toString (i + 1) ++ ": cannot flash zeros"))
  else
    let fp := flashFactorsPayload bar.lcs bar.factors
    let wf := writeAttempts bus (fun a => .writeFactors i fp a) wz.2.1
    if wf.2.2 = false then
      (wz.1 ++ wf.1, wf.2.1,
        some ("bar " ++ toString (i + 1) ++ ": cannot flash factors"))
    else
      (wz.1 ++ wf.1 ++ [.rebootCmd i], wf.2.1 + 1, none)

/-- The sequential per-bar loop: an error from one bar stops the whole
flash before any later bar is touched. -/
def flashBars (bus : Nat → String) : Nat → Nat → List BarCfg →
    List FlashEv × Nat × Option String
  | k, _, [] => ([], k, none)
  | k, i, bar :: rest =>
    let fb := flashBar bus k i bar
    match fb.2.2 with
    | some e => (fb.1, fb.2.1, some e)
    | none =>
      let more := flashBars bus fb.2.1 (i + 1) rest
      (fb.1 ++ more.1, more.2.1, more.2.2)

/-- Update-mode entry (flash.go lines 47-59): the broadcast challenge,
and on a response without `"Enter"` the recovery — reboot every bar
100 ms apart, wait 1.5 s, retry exactly once. -/
def enterPhase (bus : Nat → String) (k : Nat) (nbars : Nat) :
    List FlashEv × Nat × Bool :=
  if hasSub (bus k) "Enter" then ([.openUpdate], k + 1, true)
  else
    ([FlashEv.openUpdate] ++
      ((List.range nbars).flatMap fun i => [FlashEv.rebootCmd i, FlashEv.sleepMs 100]) ++
      [FlashEv.sleepMs 1500, FlashEv.openUpdate],
      k + 1 + nbars + 1,
      hasSub (bus (k + 1 + nbars)) "Enter")

/-- One handshake round (flash.go lines 72-80): re-challenge every
still-pending bar in order; a response with `"Enter"` removes it. -/
def handshakeRound (bus : Nat → String) : Nat → List Nat →
    List FlashEv × Nat × List Nat
  | k, [] => ([], k, [])
  | k, idx :: rest =>
    let ok := hasSub (bus k) "Enter"
    let more := handshakeRound bus (k + 1) rest
    (FlashEv.readyCmd idx :: more.1, more.2.1,
      if ok then more.2.2 else idx :: more.2.2)

/-- The up-to-6-round ready handshake (flash.go lines 66-85), sleeping
500 ms between rounds while bars remain pending. -/
def handshake (bus : Nat → String) : Nat → Nat → List Nat →
    List FlashEv × Nat × List Nat
  | k, 0, pending => ([], k, pending)
  | k, round + 1, pending =>
    if pending.isEmpty then ([], k, pending)
    else
      let r := handshakeRound bus k pending
      if r.2.2.isEmpty then (r.1, r.2.1, [])
      else
        let more := handshake bus r.2.1 round r.2.2
        (r.1 ++ FlashEv.sleepMs 500 :: more.1, more.2.1, more.2.2)

/-- `FlashParameters`: precondition guards, update-mode entry with one
recovery retry, the ready handshake, bus priming, then the sequential
per-bar payload writes. Returns the event trace and the terminal error,
if any. -/
def flashParameters (bus : Nat → String) (bars : List BarCfg) :
    List FlashEv × Option String :=
  if bars.isEmpty then ([], some "no bars configured")
  else if (bars.headD default).zeros.isEmpty then
    ([], some "no calibration factors present")
  else
    let ep := enterPhase bus 0 bars.length
    if ep.2.2 = false then (ep.1, some "cannot enter update mode")
    else
      let hs := handshake bus ep.2.1 6 (List.range bars.length)
      if hs.2.2.isEmpty = false then
        (ep.1 ++ hs.1, some "not all bars entered update mode")
      else
        let fb := flashBars bus (hs.2.1 + 1) 0 bars
        (ep.1 ++ hs.1 ++ [FlashEv.prime] ++ fb.1, fb.2.2)

lemma writeAttempts_all_fail (bus : Nat → String) (mk : Nat → FlashEv) (k : Nat)
    (h0 : hasSub (bus k) "OK" = false)
    (h1 : hasSub (bus (k + 1)) "OK" = false)
    (h2 : hasSub (bus (k + 2)) "OK" = false) :
    writeAttempts bus mk k =
      ([mk 1, .sleepMs 200, mk 2, .sleepMs 200, mk 3, .sleepMs 200], k + 3, false) := by
  simp [writeAttempts, h0, h1, h2]

lemma writeAttempts_first_ok (bus : Nat → String) (mk : Nat → FlashEv) (k : Nat)
    (h0 : hasSub (bus k) "OK" = true) :
    writeAttempts bus mk k = ([mk 1], k + 1, true) := by
  simp [writeAttempts, h0]

lemma handshakeRound_all_enter (bus : Nat → String)
    (henter : ∀ m, hasSub (bus m) "Enter" = true) :
    ∀ (pending : List Nat) (k : Nat),
      handshakeRound bus k pending =
        (pending.map FlashEv.readyCmd, k + pending.length, []) := by
  intro pending
  induction pending with
  | nil => intro k; simp [handshakeRound]
  | cons a t ih =>
    intro k
    simp [handshakeRound, henter k, ih (k + 1)]
    omega

lemma handshake_succ (bus : Nat → String) (k round : Nat) (pending : List Nat) :
    handshake bus k (round + 1) pending =
      if pending.isEmpty then ([], k, pending)
      else
        let r := handshakeRound bus k pending
        if r.2.2.isEmpty then (r.1, r.2.1, [])
        else
          let more := handshake bus r.2.1 round r.2.2
          (r.1 ++ FlashEv.sleepMs 500 :: more.1, more.2.1, more.2.2) := rfl

/-- **C6.** The payload-write discipline of `FlashParameters`. With
`zp`/`fp` the bar's zeros/factors payloads and `err_z`/`err_f` its fatal
messages: (1) if the three responses to a bar's zeros write all lack
`"OK"`, the flash stops at that bar with the fatal zeros error after
exactly 3 write attempts 200 ms apart — no reboot was issued for the bar
and no later bar was touched; (2) likewise for the factors payload (here
after the zeros write succeeded on its first attempt), again with no
reboot; (3) end to end: on a bus whose responses always contain `"Enter"`
and never `"OK"`, `FlashParameters` performs entry, handshake and
priming, then fails on the first bar's zeros payload with exactly 3
attempts and no reboot or later-bar activity at all. -/
theorem flash_three_attempts_abort (bus : Nat → String) (k i : Nat)
    (bar : BarCfg) (rest : List BarCfg) :
    ((∀ a, a < 3 → hasSub (bus (k + a)) "OK" = false) →
      flashBars bus k i (bar :: rest) =
        ([.writeZeros i (flashZerosPayload bar.lcs bar.zeros bar.factors) 1,
          .sleepMs 200,
          .writeZeros i (flashZerosPayload bar.lcs bar.zeros bar.factors) 2,
          .sleepMs 200,
          .writeZeros i (flashZerosPayload bar.lcs bar.zeros bar.factors) 3,
          .sleepMs 200], k + 3,
          some ("bar " ++ toString (i + 1) ++ ": cannot flash zeros")) ∧
        (∀ j, FlashEv.rebootCmd j ∉ (flashBars bus k i (bar :: rest)).1) ∧
        (∀ j p a, j ≠ i → FlashEv.writeZeros j p a ∉ (flashBars bus k i (bar :: rest)).1) ∧
        (∀ j p a, FlashEv.writeFactors j p a ∉ (flashBars bus k i (bar :: rest)).1)) ∧
    (hasSub (bus k) "OK" = true →
      (∀ a, a < 3 → hasSub (bus (k + 1 + a)) "OK" = false) →
      flashBars bus k i (bar :: rest) =
        ([.writeZeros i (flashZerosPayload bar.lcs bar.zeros bar.factors) 1,
          .writeFactors i (flashFactorsPayload bar.lcs bar.factors) 1,
          .sleepMs 200,
          .writeFactors i (flashFactorsPayload bar.lcs bar.factors) 2,
          .sleepMs 200,
          .writeFactors i (flashFactorsPayload bar.lcs bar.factors) 3,
          .sleepMs 200], k + 4,
          some ("bar " ++ toString (i + 1) ++ ": cannot flash factors")) ∧
        (∀ j, FlashEv.rebootCmd j ∉ (flashBars bus k i (bar :: rest)).1)) ∧
    ((∀ m, hasSub (bus m) "Enter" = true) →
      (∀ m, hasSub (bus m) "OK" = false) →
      bar.zeros ≠ [] →
      flashParameters bus (bar :: rest) =
        ([FlashEv.openUpdate] ++
          ((List.range (rest.length + 1)).map FlashEv.readyCmd) ++
          [FlashEv.prime] ++
          [.writeZeros 0 (flashZerosPayload bar.lcs bar.zeros bar.factors) 1,
           .sleepMs 200,
           .writeZeros 0 (flashZerosPayload bar.lcs bar.zeros bar.factors) 2,
           .sleepMs 200,
           .writeZeros 0 (flashZerosPayload bar.lcs bar.zeros bar.factors) 3,
           .sleepMs 200],
          some "bar 1: cannot flash zeros")) := by
  have hzfail : ∀ (k' i' : Nat), (∀ a, a < 3 → hasSub (bus (k' + a)) "OK" = false) →
      flashBars bus k' i' (bar :: rest) =
        ([.writeZeros i' (flashZerosPayload bar.lcs bar.zeros bar.factors) 1,
          .sleepMs 200,
          .writeZeros i' (flashZerosPayload bar.lcs bar.zeros bar.factors) 2,
          .sleepMs 200,
          .writeZeros i' (flashZerosPayload bar.lcs bar.zeros bar.factors) 3,
          .sleepMs 200], k' + 3,
          some ("bar " ++ toString (i' + 1) ++ ": cannot flash zeros")) := by
    intro k' i' h
    have h0 : hasSub (bus k') "OK" = false := by simpa using h 0 (by omega)
    have h1 : hasSub (bus (k' + 1)) "OK" = false := h 1 (by omega)
    have h2 : hasSub (bus (k' + 2)) "OK" = false := h 2 (by omega)
    have hw := writeAttempts_all_fail bus
      (fun a => FlashEv.writeZeros i' (flashZerosPayload bar.lcs bar.zeros bar.factors) a)
      k' h0 h1 h2
    simp only [flashBars, flashBar, hw]
    simp
  refine ⟨?_, ?_, ?_⟩
  · intro h
    have heq := hzfail k i h
    refine ⟨heq, ?_, ?_, ?_⟩
    · intro j
      rw [heq]
      simp
    · intro j p a hj
      rw [heq]
      simp [hj]
    · intro j p a
      rw [heq]
      simp
  · intro hok h
    have h0 : hasSub (bus (k + 1)) "OK" = false := by simpa using h 0 (by omega)
    have h1 : hasSub (bus (k + 1 + 1)) "OK" = false := h 1 (by omega)
    have h2 : hasSub (bus (k + 1 + 2)) "OK" = false := h 2 (by omega)
    have hwz := writeAttempts_first_ok bus
      (fun a => FlashEv.writeZeros i (flashZerosPayload bar.lcs bar.zeros bar.factors) a)
      k hok
    have hwf := writeAttempts_all_fail bus
      (fun a => FlashEv.writeFactors i (flashFactorsPayload bar.lcs bar.factors) a)
      (k + 1) h0 h1 h2
    have heq : flashBars bus k i (bar :: rest) =
        ([.writeZeros i (flashZerosPayload bar.lcs bar.zeros bar.factors) 1,
          .writeFactors i (flashFactorsPayload bar.lcs bar.factors) 1,
          .sleepMs 200,
          .writeFactors i (flashFactorsPayload bar.lcs bar.factors) 2,
          .sleepMs 200,
          .writeFactors i (flashFactorsPayload bar.lcs bar.factors) 3,
          .sleepMs 200], k + 4,
          some ("bar " ++ toString (i + 1) ++ ": cannot flash factors")) := by
      simp only [flashBars, flashBar, hwz, hwf]
      norm_num
    refine ⟨heq, ?_⟩
    intro j
    rw [heq]
    simp
  · intro henter hok hz
    have hhead : ((bar :: rest : List BarCfg).headD default).zeros.isEmpty = false := by
      simp [List.headD]
      exact hz
    have hep : enterPhase bus 0 (bar :: rest).length = ([.openUpdate], 1, true) := by
      simp [enterPhase, henter 0]
    have hround := handshakeRound_all_enter bus henter
      (List.range (bar :: rest).length) 1
    have hhs : handshake bus 1 6 (List.range (bar :: rest).length) =
        ((List.range (rest.length + 1)).map FlashEv.readyCmd,
          1 + (rest.length + 1), []) := by
      rw [show (6 : Nat) = 5 + 1 from rfl, handshake_succ]
      rw [if_neg (by simp)]
      simp only [hround]
      simp
    have hfb := hzfail (1 + (rest.length + 1) + 1) 0
      (fun a _ => hok (1 + (rest.length + 1) + 1 + a))
    simp only [flashParameters, List.isEmpty_cons, hhead, hep, hhs, hfb]
    simp
    rfl

/-- Witness for C6: one bar, a bus that always answers `"Enter"` (never
`"OK"`): the per-bar loop aborts after 3 zeros attempts, and the whole
flash ends with the bar-1 zeros error after entry, handshake and
priming. -/
theorem flash_three_attempts_abort_witness :
    flashBars (fun _ => "Enter") 0 0 [(⟨1, [5], [2]⟩ : BarCfg)] =
        ([FlashEv.writeZeros 0 (flashZerosPayload 1 [5] [2]) 1, FlashEv.sleepMs 200,
          FlashEv.writeZeros 0 (flashZerosPayload 1 [5] [2]) 2, FlashEv.sleepMs 200,
          FlashEv.writeZeros 0 (flashZerosPayload 1 [5] [2]) 3, FlashEv.sleepMs 200],
          0 + 3, some ("bar " ++ toString (0 + 1) ++ ": cannot flash zeros")) ∧
      flashParameters (fun _ => "Enter") [(⟨1, [5], [2]⟩ : BarCfg)] =
        ([FlashEv.openUpdate] ++ ((List.range (0 + 1)).map FlashEv.readyCmd) ++
          [FlashEv.prime] ++
          [FlashEv.writeZeros 0 (flashZerosPayload 1 [5] [2]) 1, FlashEv.sleepMs 200,
           FlashEv.writeZeros 0 (flashZerosPayload 1 [5] [2]) 2, FlashEv.sleepMs 200,
           FlashEv.writeZeros 0 (flashZerosPayload 1 [5] [2]) 3, FlashEv.sleepMs 200],
          some "bar 1: cannot flash zeros") :=
  ⟨((flash_three_attempts_abort (fun _ => "Enter") 0 0 ⟨1, [5], [2]⟩ []).1
      (fun a _ => by decide)).1,
    (flash_three_attempts_abort (fun _ => "Enter") 0 0 ⟨1, [5], [2]⟩ []).2.2
      (fun m => by decide) (fun m => by decide) (by decide)⟩

/-! ### The calibration step handler (`handleCalStartStep`,
src/internal/server/server.go lines 308-434). The handler's HTTP
plumbing, sampling and broadcasts are sequentialized: a step report is
(stepIndex, flattened sample); the `calMu`-guarded session fields are the
state. -/

/-- The `DeviceSession` calibration fields guarded by `calMu`. -/
structure CalAccum where
  ad0 : Option MatrixQ
  adv : Option MatrixQ
  received : Nat
  steps : List CalStepL
  nloads : Int
  deriving Inhabited

/-- Calibration state plus the computed per-bar coefficient lists
(`p.BARS[i].LC`, written only by `computeZerosAndFactors`). -/
structure CalSession where
  accum : CalAccum
  coeffs : Option (List (List LCRec))
  deriving Inhabited

/-- The reset at step 0 (server.go lines 345-353). -/
def calReset (st : CalSession) (stepIndex : Nat) (steps : List CalStepL)
    (nloads : Int) : CalSession :=
  if stepIndex = 0 then
    { st with accum :=
      { ad0 := none, adv := none, received := 0, steps := steps,
        nloads := nloads } }
  else st

/-- The `calMu` critical section's matrix update and received-count
increment (server.go lines 371-380): a zero step rebuilds `Ad0` and a
fresh `Adv`; a weight step overwrites its `Adv` row when `Adv` is
present; `calReceived++` always. -/
def calStepUpdate (nbars : Nat) (nlcs nloads : Int) (a : CalAccum)
    (step : CalStepL) (flat : List ℤ) : CalAccum :=
  let calibs := 3 * (nbars - 1)
  let a2 :=
    if step.kind = .zero then
      { a with
        ad0 := some (updateMatrixZero flat calibs nlcs.toNat),
        adv := some (newMatrix nloads.toNat (nbars * nlcs.toNat)) }
    else
      match a.adv with
      | some adv =>
        { a with
          adv := some (updateMatrixWeight adv flat step.index.toNat nlcs.toNat) }
      | none => a
  { a2 with received := a2.received + 1 }

/-- One step report through `handleCalStartStep`: plan rebuild and index
validation, the reset at step 0, the matrix update and received-count
increment, and — exactly when the new count equals the stored plan
length and both matrices are present — the invocation of
`computeZerosAndFactors`. Returns (new state, accepted, computeInvoked);
`accepted = false` is the 4xx error response, a rejected report. -/
def handleStepReport (pinvFn : MatrixQ → Option MatrixQ) (nbars : Nat)
    (nlcs : Int) (weight : ℚ) (st : CalSession) (stepIndex : Nat)
    (flat : List ℤ) : CalSession × Bool × Bool :=
  match buildCalibrationPlan nbars nlcs with
  | none => (st, false, false)
  | some (steps, nloads) =>
    if steps.length ≤ stepIndex then (st, false, false)
    else
      let st1 := calReset st stepIndex steps nloads
      let a3 := calStepUpdate nbars nlcs nloads st1.accum
        (steps.getD stepIndex default) flat
      if a3.received ≠ a3.steps.length then ({ st1 with accum := a3 }, true, false)
      else
        match a3.ad0, a3.adv with
        | some ad0, some adv =>
          (match computeZerosAndFactors pinvFn adv ad0 weight nbars with
           | some bars => ({ accum := a3, coeffs := some bars }, true, true)
           | none => ({ st1 with accum := a3 }, true, true))
        | _, _ => ({ st1 with accum := a3 }, true, false)

/-- A sequence of step reports, returning the final state and, per
report, its (accepted, computeInvoked) flags. -/
def processReports (pinvFn : MatrixQ → Option MatrixQ) (nbars : Nat)
    (nlcs : Int) (weight : ℚ) :
    CalSession → List (Nat × List ℤ) → CalSession × List (Bool × Bool)
  | st, [] => (st, [])
  | st, (idx, flat) :: rest =>
    let r := handleStepReport pinvFn nbars nlcs weight st idx flat
    let more := processReports pinvFn nbars nlcs weight r.1 rest
    (more.1, r.2 :: more.2)

/-- The initial session state (`DeviceSession` zero value). -/
def initialCalSession : CalSession :=
  ⟨⟨none, none, 0, [], 0⟩, none⟩

/-- **C5 counterexample.** Two bars, one channel: the plan has 4 steps.
The report sequence step 0, then step 1 three times makes the received
count reach the plan length, so the zero/factor computation is invoked
(last report's flags are accepted = true, computeInvoked = true) although
step 2 (and step 3) never reported — the count-only tracking does not
enforce "every one of the N+1 steps reported exactly once". -/
theorem cal_compute_runs_with_duplicate_steps :
    ((processReports (fun _ => none) 2 1 500 initialCalSession
        [(0, [1, 2]), (1, [3, 4]), (1, [5, 6]), (1, [7, 8])]).2.getLast?) =
      some (true, true) ∧
      ∀ r ∈ [((0 : Nat), [(1 : ℤ), 2]), (1, [3, 4]), (1, [5, 6]), (1, [7, 8])],
        r.1 ≠ 2 := by
  constructor
  · rfl
  · decide

/-- **C5 amended.** In `handleCalStartStep`: (1) the zero/factor
computation is invoked only when the received-step count, after the
report, equals the stored plan length — duplicates count, so "every step
exactly once" is not enforced; (2) a late or duplicate weight-step report
arriving after the plan is already complete is not an error (the report
is accepted), does not re-run the computation, and leaves the computed
coefficients unchanged — though it does increment the received count (and
overwrites its row of the weight matrix), so the accumulator state is not
literally untouched; a step-0 report instead resets the accumulator and
starts a new plan. -/
theorem cal_step_guard (pinvFn : MatrixQ → Option MatrixQ) (nbars : Nat)
    (nlcs : Int) (weight : ℚ) (st : CalSession) (stepIndex : Nat)
    (flat : List ℤ) (steps : List CalStepL) (nloads : Int)
    (hplan : buildCalibrationPlan nbars nlcs = some (steps, nloads))
    (hidx : stepIndex < steps.length) :
    (∀ st' acc inv, handleStepReport pinvFn nbars nlcs weight st stepIndex flat =
        (st', acc, inv) → inv = true →
      st'.accum.received = st'.accum.steps.length) ∧
    (∀ st' acc inv, handleStepReport pinvFn nbars nlcs weight st stepIndex flat =
        (st', acc, inv) → stepIndex ≠ 0 →
      st.accum.steps.length = steps.length →
      st.accum.received = steps.length →
      acc = true ∧ inv = false ∧ st'.coeffs = st.coeffs ∧
        st'.accum.received = st.accum.received + 1) := by
  have hif : ¬ steps.length ≤ stepIndex := by omega
  have hupd : ∀ (a : CalAccum) (step : CalStepL),
      (calStepUpdate nbars nlcs nloads a step flat).received = a.received + 1 ∧
        (calStepUpdate nbars nlcs nloads a step flat).steps = a.steps := by
    intro a step
    simp only [calStepUpdate]
    split
    · exact ⟨rfl, rfl⟩
    · cases a.adv <;> exact ⟨rfl, rfl⟩
  constructor
  · intro st' acc inv heq hinv
    simp only [handleStepReport, hplan, if_neg hif] at heq
    split at heq
    · rw [Prod.mk.injEq, Prod.mk.injEq] at heq
      rw [← heq.2.2] at hinv
      exact absurd hinv (by simp)
    · rename_i hrc
      rw [Decidable.not_not] at hrc
      split at heq
      · split at heq <;>
        · rw [Prod.mk.injEq, Prod.mk.injEq] at heq
          rw [← heq.1]
          exact hrc
      · rw [Prod.mk.injEq, Prod.mk.injEq] at heq
        rw [← heq.2.2] at hinv
        exact absurd hinv (by simp)
  · intro st' acc inv heq hnz hslen hsrec
    simp only [handleStepReport, hplan, if_neg hif, calReset, if_neg hnz] at heq
    obtain ⟨hrec, hstp⟩ := hupd st.accum (steps.getD stepIndex default)
    rw [if_pos (by rw [hrec, hstp]; omega)] at heq
    rw [Prod.mk.injEq, Prod.mk.injEq] at heq
    refine ⟨heq.2.1.symm, heq.2.2.symm, ?_, ?_⟩ <;> rw [← heq.1] <;>
      first
      | rfl
      | exact hrec

/-- Witness for the amended C5: (1) a single-bar plan completes on its
step-0 report, and the computation is indeed invoked exactly at
received = plan length; (2) on an already-complete 2-bar plan (received
= 4 = plan length) a duplicate report of step 1 is accepted, does not
re-run the computation, leaves the coefficients unchanged, and bumps the
received count to 5. -/
theorem cal_step_guard_witness :
    ((handleStepReport (fun _ => none) 1 1 500 initialCalSession 0 [4]).1.accum.received =
      (handleStepReport (fun _ => none) 1 1 500 initialCalSession 0
        [4]).1.accum.steps.length) ∧
      ((handleStepReport (fun _ => none) 2 1 500
          ⟨⟨some (newMatrix 3 2), some (newMatrix 3 2), 4, planSteps 2 1, 3⟩, none⟩
          1 [9, 9]).2.1 = true ∧
        (handleStepReport (fun _ => none) 2 1 500
          ⟨⟨some (newMatrix 3 2), some (newMatrix 3 2), 4, planSteps 2 1, 3⟩, none⟩
          1 [9, 9]).2.2 = false ∧
        (handleStepReport (fun _ => none) 2 1 500
          ⟨⟨some (newMatrix 3 2), some (newMatrix 3 2), 4, planSteps 2 1, 3⟩, none⟩
          1 [9, 9]).1.coeffs = none ∧
        (handleStepReport (fun _ => none) 2 1 500
          ⟨⟨some (newMatrix 3 2), some (newMatrix 3 2), 4, planSteps 2 1, 3⟩, none⟩
          1 [9, 9]).1.accum.received = 4 + 1) := by
  constructor
  · exact (cal_step_guard (fun _ => none) 1 1 500 initialCalSession 0 [4]
      [{ kind := .zero, index := -1, label := "[ZERO]", placement := none }] 0
      (by decide) (by decide)).1 _ _ _ rfl (by decide)
  · have h := (cal_step_guard (fun _ => none) 2 1 500
      ⟨⟨some (newMatrix 3 2), some (newMatrix 3 2), 4, planSteps 2 1, 3⟩, none⟩
      1 [9, 9] (planSteps 2 1) (planLoads 2 1) (by decide) (by decide)).2
      _ _ _ rfl (by decide) (by decide) (by decide)
    exact ⟨h.1, h.2.1, h.2.2.1, h.2.2.2⟩

end CalRunrilla
